import Mathlib

/-!
Verification of the werewolf game-session engine found in `main.py`.

The engine state and operations are shallowly embedded: Python dataclasses
become Lean structures, `Dict[int, ...]` becomes an insertion-ordered
association list, and every command handler becomes a pure function from
the session state to a (rejection?, new state) pair.  Discord ids are
natural numbers; Python truthiness on `Optional[int]` fields (`if x:`) is
modelled faithfully, so `some 0` counts as "absent" exactly as in Python.
All UI / messaging side effects are dropped: only state mutations and the
accept/reject outcome of each call are modelled.
-/

namespace LoupGarou

/-- One player inside a session (Python dataclass `PlayerState`). -/
structure PlayerState where
  user_id : Nat
  role : Option String := none
  alive : Bool := true
  lover_id : Option Nat := none
  infected : Bool := false
deriving Repr, DecidableEq

/-- The per-round vote record (Python dataclass `VoteState`).
`votes` maps voter id to target id; a repeated voter key is overwritten. -/
structure VoteState where
  active : Bool := false
  kind : String := ""
  votes : List (Nat × Nat) := []
deriving Repr, DecidableEq

/-- The whole session state (Python dataclass `GameState`); the `guild_id`
and `channel_id` fields are pure plumbing and are dropped. -/
structure GameState where
  created_by : Nat
  started : Bool := false
  phase : String := "lobby"
  day : Nat := 0
  players : List (Nat × PlayerState) := []
  mayor_id : Option Nat := none
  protected_id : Option Nat := none
  seer_target_id : Option Nat := none
  wolf_target_id : Option Nat := none
  witch_heal_used : Bool := false
  witch_kill_used : Bool := false
  witch_heal_target_id : Option Nat := none
  witch_kill_target_id : Option Nat := none
  cupid_done : Bool := false
  cupid_targets : List Nat := []
  black_infect_used : Bool := false
  black_infect_target_id : Option Nat := none
  vote : VoteState := {}
deriving Repr, DecidableEq

/-- Python truthiness of an `Optional[int]`: `None` and `0` are falsy. -/
def truthy : Option Nat → Bool
  | none => false
  | some n => n != 0

/-- Lookup in the insertion-ordered player map (`d in game.players` /
`game.players.get`). -/
def pfind : List (Nat × PlayerState) → Nat → Option PlayerState
  | [], _ => none
  | (k, v) :: rest, x => if k = x then some v else pfind rest x

/-- `x in game.players`. -/
def memKey (ps : List (Nat × PlayerState)) (x : Nat) : Bool :=
  (pfind ps x).isSome

/-- In-place mutation of one player entry (`game.players[k].field = ...`). -/
def pmod (ps : List (Nat × PlayerState)) (k : Nat)
    (f : PlayerState → PlayerState) : List (Nat × PlayerState) :=
  ps.map (fun kv => if kv.1 = k then (kv.1, f kv.2) else kv)

/-- `game.players[x].alive` guarded by membership. -/
def aliveMem (ps : List (Nat × PlayerState)) (x : Nat) : Bool :=
  match pfind ps x with
  | some p => p.alive
  | none => false

/-- `is_wolf` from the source: `role in WOLF_ROLES`, false on `None`. -/
def is_wolf : Option String → Bool
  | some r => r == "loup_garou" || r == "loup_garou_noir"
  | none => false

/-- `role_distribution` from the source, minus the final uniform shuffle
(theorems about it quantify over all permutations of the result, which
covers every possible shuffle outcome).  The `while len(roles) < n` pad
loop is rendered as `List.replicate (n - len) "villageois"`. -/
def role_distribution (n : Int) : Except String (List String) :=
  if n < 8 ∨ 15 < n then
    .error "Partie prévue pour 8 à 15 joueurs."
  else
    let m := n.toNat
    let core := ["voyante", "sorciere", "garde", "chasseur", "cupidon"]
    let wolves :=
      if m ≤ 9 then ["loup_garou", "loup_garou"]
      else if m ≤ 12 then ["loup_garou", "loup_garou_noir", "loup_garou"]
      else ["loup_garou", "loup_garou_noir", "loup_garou", "loup_garou"]
    let pf := if 10 ≤ m then ["petite_fille"] else []
    let base := core ++ wolves ++ pf
    .ok (base ++ List.replicate (m - base.length) "villageois")

/-- Abstract victory outcome standing for the two French victory strings
returned by `check_victory`. -/
inductive Winner where
  | village
  | wolves
deriving Repr, DecidableEq

/-- `check_victory` from the source. -/
def check_victory (g : GameState) : Option Winner :=
  let alive := g.players.filter (fun kv => kv.2.alive)
  let wolves := (alive.filter (fun kv => is_wolf kv.2.role)).length
  let others := (alive.filter (fun kv => !is_wolf kv.2.role)).length
  if wolves = 0 ∧ g.started then some .village
  else if wolves ≥ others ∧ g.started ∧ wolves > 0 then some .wolves
  else none

/-- Python dict write `counts[target] = counts.get(target, 0) + weight`. -/
def addCount (cs : List (Nat × Nat)) (t w : Nat) : List (Nat × Nat) :=
  match cs.lookup t with
  | some c => cs.map (fun kv => if kv.1 = t then (t, c + w) else kv)
  | none => cs ++ [(t, w)]

/-- The ballot weight computed inside `tally_votes`:
`if game.mayor_id and voter == game.mayor_id and game.vote.kind == "daykill"`. -/
def voteWeight (g : GameState) (voter : Nat) : Nat :=
  if truthy g.mayor_id && (g.mayor_id == some voter) && (g.vote.kind == "daykill")
  then 2 else 1

/-- The `counts` dict built by the loop in `tally_votes`. -/
def tallyCounts (g : GameState) : List (Nat × Nat) :=
  g.vote.votes.foldl (fun cs vt => addCount cs vt.2 (voteWeight g vt.1)) []

/-- `tally_votes` from the source. -/
def tally_votes (g : GameState) : Option Nat × List (Nat × Nat) :=
  let counts := tallyCounts g
  if counts = [] then (none, counts)
  else
    let best := (counts.map (fun kv => kv.2)).foldl max 0
    let top := (counts.filter (fun kv => kv.2 = best)).map (fun kv => kv.1)
    match top with
    | [t] => (some t, counts)
    | _ => (none, counts)

/-- One step of the deaths/lovers closure loop of `lg_finish_night` (lines
603-615) and `lg_vote_end` (lines 798-808), with explicit fuel; the Python
loop pops from the back of `stack` where this pops from the front, which
permutes the visiting order but not the computed set.  `final.contains`,
the absence/alive skips and the
`if lover and lover in game.players and game.players[lover].alive` push
condition are verbatim. -/
def expandLoop (ps : List (Nat × PlayerState)) :
    Nat → List Nat → List Nat → List Nat
  | 0, _, final => final
  | _ + 1, [], final => final
  | fuel + 1, d :: rest, final =>
    if d ∈ final then expandLoop ps fuel rest final
    else
      match pfind ps d with
      | none => expandLoop ps fuel rest final
      | some p =>
        if p.alive then
          match p.lover_id with
          | some l =>
            if l ≠ 0 ∧ aliveMem ps l = true then
              expandLoop ps fuel (l :: rest) (d :: final)
            else expandLoop ps fuel rest (d :: final)
          | none => expandLoop ps fuel rest (d :: final)
        else expandLoop ps fuel rest final

/-- The deaths/lovers closure: seed the stack with the direct kills and run
the loop.  The fuel `deaths.length + ps.length + 1` is enough for the loop
to exhaust its stack: each pop consumes one fuel, and pushes happen only
when a not-yet-final player is finalized, which can occur at most
`ps.length` times. -/
def expandDeaths (ps : List (Nat × PlayerState)) (deaths : List Nat) : List Nat :=
  expandLoop ps (deaths.length + ps.length + 1) deaths []

/-- `for d in final_deaths: game.players[d].alive = False`. -/
def markDead (ps : List (Nat × PlayerState)) (final : List Nat) :
    List (Nat × PlayerState) :=
  final.foldl (fun acc d => pmod acc d (fun p => { p with alive := false })) ps

/-- `truthy heal_target && not witch_heal_used`: the witch-heal guard of
line 574. -/
def healFires (g : GameState) : Bool :=
  truthy g.witch_heal_target_id && !g.witch_heal_used

/-- Lines 569-571: drop the wolves' victim when the guard protected it. -/
def guardStep (g : GameState) (v : Option Nat) : Option Nat :=
  if truthy v && (g.protected_id == v) then none else v

/-- Lines 575-577: clear the victim when the heal fires on it. -/
def healClear (g : GameState) (v : Option Nat) : Option Nat :=
  if healFires g && (v == g.witch_heal_target_id) then none else v

/-- Line 578: mark the heal consumed (inside the same guard). -/
def healConsume (g : GameState) : GameState :=
  if healFires g then { g with witch_heal_used := true } else g

/-- Lines 582-584: the black-wolf infection applies — target submitted,
ability unspent, target present, alive and not already a wolf. -/
def infectOk (g : GameState) : Bool :=
  truthy g.black_infect_target_id && !g.black_infect_used &&
    (match g.black_infect_target_id with
     | some t =>
       (match pfind g.players t with
        | some p => p.alive && !is_wolf p.role
        | none => false)
     | none => false)

/-- Lines 586-591: convert the infected target to a plain wolf, consume the
infection, and clear the victim slot when the wolves had targeted the same
player. -/
def infectApply (g : GameState) (v : Option Nat) : Option Nat × GameState :=
  if infectOk g then
    match g.black_infect_target_id with
    | some t =>
      ((if v == some t then none else v),
        { g with
          players := pmod g.players t
            (fun q => { q with role := some "loup_garou", infected := true }),
          black_infect_used := true })
    | none => (v, g)
  else (v, g)

/-- Lines 594-595: the still-standing victim joins the direct-kill set. -/
def victimList (v : Option Nat) : List Nat :=
  if truthy v then [v.getD 0] else []

/-- Lines 598-600: the witch poison unconditionally adds its target and is
consumed. -/
def poisonStep (g : GameState) (deaths : List Nat) : GameState × List Nat :=
  if truthy g.witch_kill_target_id && !g.witch_kill_used then
    ({ g with witch_kill_used := true }, deaths ++ [g.witch_kill_target_id.getD 0])
  else (g, deaths)

/-- The night-effect block of `lg_finish_night` (lines 566-600), in the
source's textual order: guard save, then witch heal, then black-wolf
infection, then wolves' victim, then witch poison.  Returns the state with
the heal/infection/poison effects applied together with the direct-kill
list fed to the deaths/lovers closure. -/
def nightKills (g : GameState) : GameState × List Nat :=
  let victim1 := guardStep g g.wolf_target_id
  let victim2 := healClear g victim1
  let g2 := healConsume g
  let vi := infectApply g2 victim2
  poisonStep vi.2 (victimList vi.1)

/-- Spec §4.3 analogue of `healFires`, with plain option presence. -/
def sHealFires (g : GameState) : Bool :=
  g.witch_heal_target_id.isSome && !g.witch_heal_used

/-- Spec §4.3 step 2. -/
def sGuardStep (g : GameState) (v : Option Nat) : Option Nat :=
  if v.isSome && (g.protected_id == v) then none else v

/-- Spec §4.3 step 4 victim part: heal compared against the then-current
tentative victim. -/
def sHealClear (g : GameState) (v : Option Nat) : Option Nat :=
  if sHealFires g && (v == g.witch_heal_target_id) then none else v

/-- Spec §4.3 step 4, consumption part: the heal is marked consumed
regardless of whether it changed the outcome. -/
def sHealConsume (g : GameState) : GameState :=
  if sHealFires g then { g with witch_heal_used := true } else g

/-- Spec §4.3 step 3 applicability. -/
def sInfectOk (g : GameState) : Bool :=
  g.black_infect_target_id.isSome && !g.black_infect_used &&
    (match g.black_infect_target_id with
     | some t =>
       (match pfind g.players t with
        | some p => p.alive && !is_wolf p.role
        | none => false)
     | none => false)

/-- Spec §4.3 step 3. -/
def sInfectApply (g : GameState) (v : Option Nat) : Option Nat × GameState :=
  if sInfectOk g then
    match g.black_infect_target_id with
    | some t =>
      ((if v == some t then none else v),
        { g with
          players := pmod g.players t
            (fun q => { q with role := some "loup_garou", infected := true }),
          black_infect_used := true })
    | none => (v, g)
  else (v, g)

/-- Spec §4.3 step 5. -/
def sPoisonStep (g : GameState) (deaths : List Nat) : GameState × List Nat :=
  if g.witch_kill_target_id.isSome && !g.witch_kill_used then
    ({ g with witch_kill_used := true }, deaths ++ g.witch_kill_target_id.toList)
  else (g, deaths)

/-- Resolution in the numbered order of spec §4.3, written from the spec's
words for comparison with `nightKills`: 1-2 tentative victim net of
protection, 3 black-wolf infection, 4 heal compared against the
then-current victim and consumed regardless, 5-6 direct-kill set =
still-set victim plus poison target. -/
def specNightKills (g : GameState) : GameState × List Nat :=
  let victim1 := sGuardStep g g.wolf_target_id
  let vi := sInfectApply g victim1
  let victim4 := sHealClear vi.2 vi.1
  let g4 := sHealConsume vi.2
  sPoisonStep g4 victim4.toList

/-- The full state effect of a successful `lg_finish_night` (night effects,
deaths/lovers closure, marking, day increment, day phase, then the victory
check which may end the game). -/
def applyNight (g : GameState) : GameState :=
  let gk := nightKills g
  let final := expandDeaths gk.1.players gk.2
  let g2 := { gk.1 with
    players := markDead gk.1.players final,
    day := gk.1.day + 1,
    phase := "day" }
  match check_victory g2 with
  | some _ => { g2 with phase := "ended" }
  | none => g2

/-- The Cupid application block of `lg_resolve_night` (lines 496-501): the
only state mutation that command performs. -/
def applyCupid (g : GameState) : GameState :=
  if g.cupid_done then
    match g.cupid_targets with
    | [a, b] =>
      if memKey g.players a && memKey g.players b then
        { g with players :=
            (pmod (pmod g.players a (fun p => { p with lover_id := some b }))
              b (fun p => { p with lover_id := some a })) }
      else g
    | _ => g
  else g

/-- The night-storage reset at the top of `send_night_actions`. -/
def resetNightStorage (g : GameState) : GameState :=
  { g with
    protected_id := none,
    seer_target_id := none,
    wolf_target_id := none,
    witch_heal_target_id := none,
    witch_kill_target_id := none,
    black_infect_target_id := none }

/-- Rejection outcomes of the command handlers, one constructor per
distinct rejection message in the source. -/
inductive Rej where
  | sessionActive
  | noSession
  | alreadyStarted
  | alreadyJoined
  | notJoined
  | notOwner
  | badPartySize
  | wrongPhase
  | noVote
  | invalidVoter
  | invalidTarget
  | unavailable
deriving Repr, DecidableEq

/-- `/lg create`: per-session view of the registry logic — a session whose
phase is not `ended` refuses replacement, otherwise a fresh lobby state is
installed. -/
def lg_create (g : GameState) (uid : Nat) : Option Rej × GameState :=
  if g.phase != "ended" then (some .sessionActive, g)
  else (none, { created_by := uid })

/-- `/lg join`. -/
def lg_join (g : GameState) (uid : Nat) : Option Rej × GameState :=
  if g.phase == "ended" then (some .noSession, g)
  else if g.started then (some .alreadyStarted, g)
  else if memKey g.players uid then (some .alreadyJoined, g)
  else (none, { g with players := g.players ++ [(uid, { user_id := uid })] })

/-- `/lg leave`. -/
def lg_leave (g : GameState) (uid : Nat) : Option Rej × GameState :=
  if g.phase == "ended" then (some .noSession, g)
  else if g.started then (some .alreadyStarted, g)
  else if memKey g.players uid then
    (none, { g with players := g.players.filter (fun kv => kv.1 != uid) })
  else (some .notJoined, g)

/-- `/lg start`.  The double shuffle-and-zip role assignment is modelled by
an arbitrary assignment function `rho` carried by the operation: every
permutation outcome is one choice of `rho`, so theorems quantified over
`rho` cover all of them. -/
def lg_start (g : GameState) (uid : Nat) (rho : Nat → String) :
    Option Rej × GameState :=
  if g.phase == "ended" then (some .noSession, g)
  else if uid != g.created_by then (some .notOwner, g)
  else if g.started then (some .alreadyStarted, g)
  else if g.players.length < 8 ∨ 15 < g.players.length then
    (some .badPartySize, g)
  else
    (none, resetNightStorage { g with
      players := g.players.map (fun kv => (kv.1, { kv.2 with role := some (rho kv.1) })),
      started := true,
      phase := "night",
      day := 0 })

/-- `/lg resolve_night`: guards, then the Cupid application (seer and witch
prompts are pure messaging). -/
def lg_resolve_night (g : GameState) (uid : Nat) : Option Rej × GameState :=
  if g.phase == "ended" then (some .noSession, g)
  else if uid != g.created_by then (some .notOwner, g)
  else if g.phase != "night" then (some .wrongPhase, g)
  else (none, applyCupid g)

/-- `/lg finish_night`. -/
def lg_finish_night (g : GameState) (uid : Nat) : Option Rej × GameState :=
  if g.phase == "ended" then (some .noSession, g)
  else if uid != g.created_by then (some .notOwner, g)
  else if g.phase != "night" then (some .wrongPhase, g)
  else (none, applyNight g)

/-- `/lg mayor_start`. -/
def lg_mayor_start (g : GameState) (uid : Nat) : Option Rej × GameState :=
  if g.phase == "ended" then (some .noSession, g)
  else if uid != g.created_by then (some .notOwner, g)
  else if g.phase != "day" then (some .wrongPhase, g)
  else (none, { g with vote := { active := true, kind := "mayor", votes := [] } })

/-- `/lg dayvote_start`. -/
def lg_dayvote_start (g : GameState) (uid : Nat) : Option Rej × GameState :=
  if g.phase == "ended" then (some .noSession, g)
  else if uid != g.created_by then (some .notOwner, g)
  else if g.phase != "day" then (some .wrongPhase, g)
  else (none, { g with vote := { active := true, kind := "daykill", votes := [] } })

/-- Python dict write `game.vote.votes[voter] = target`. -/
def setVote (vs : List (Nat × Nat)) (voter target : Nat) : List (Nat × Nat) :=
  match vs.lookup voter with
  | some _ => vs.map (fun kv => if kv.1 = voter then (voter, target) else kv)
  | none => vs ++ [(voter, target)]

/-- `/lg vote`. -/
def lg_vote (g : GameState) (uid target : Nat) : Option Rej × GameState :=
  if g.phase == "ended" then (some .noSession, g)
  else if !g.vote.active then (some .noVote, g)
  else if !aliveMem g.players uid then (some .invalidVoter, g)
  else if !aliveMem g.players target then (some .invalidTarget, g)
  else (none, { g with vote := { g.vote with votes := setVote g.vote.votes uid target } })

/-- The state effect of a successful `lg_vote_end`: close the round, apply
a mayor election or a day elimination with its deaths/lovers closure, then
the victory check; when the game goes on the next night begins and the
night storage is reset. -/
def applyVoteEnd (g : GameState) : GameState :=
  let winner := (tally_votes g).1
  let g1 := { g with vote := { g.vote with active := false } }
  if g1.vote.kind == "mayor" then
    match winner with
    | none => g1
    | some w => { g1 with mayor_id := some w }
  else
    let g2 :=
      match winner with
      | none => g1
      | some w =>
        let final := expandDeaths g1.players [w]
        { g1 with players := markDead g1.players final }
    match check_victory g2 with
    | some _ => { g2 with phase := "ended" }
    | none => resetNightStorage { g2 with phase := "night" }

/-- `/lg vote_end`. -/
def lg_vote_end (g : GameState) (uid : Nat) : Option Rej × GameState :=
  if g.phase == "ended" then (some .noSession, g)
  else if uid != g.created_by then (some .notOwner, g)
  else if !g.vote.active then (some .noVote, g)
  else (none, applyVoteEnd g)

/-- `/lg end`. -/
def lg_end (g : GameState) (uid : Nat) : Option Rej × GameState :=
  if uid != g.created_by then (some .notOwner, g)
  else (none, { g with phase := "ended" })

/-- Night-action submissions arriving through the DM select menus
(`TargetSelect.callback`).  A menu exists only while the corresponding
night is in progress and, for the one-shot roles, only while the ability
is unspent; a submission outside those windows is modelled as a rejected
call.  Menu options are built from the living players. -/
def submitGuard (g : GameState) (t : Nat) : Option Rej × GameState :=
  if g.phase != "night" then (some .unavailable, g)
  else if !aliveMem g.players t then (some .invalidTarget, g)
  else (none, { g with protected_id := some t })

/-- Seer target submission. -/
def submitSeer (g : GameState) (t : Nat) : Option Rej × GameState :=
  if g.phase != "night" then (some .unavailable, g)
  else if !aliveMem g.players t then (some .invalidTarget, g)
  else (none, { g with seer_target_id := some t })

/-- Wolves' target submission (each one overwrites the previous). -/
def submitWolves (g : GameState) (t : Nat) : Option Rej × GameState :=
  if g.phase != "night" then (some .unavailable, g)
  else if !aliveMem g.players t then (some .invalidTarget, g)
  else (none, { g with wolf_target_id := some t })

/-- Witch heal target submission. -/
def submitWitchHeal (g : GameState) (t : Nat) : Option Rej × GameState :=
  if g.phase != "night" ∨ g.witch_heal_used then (some .unavailable, g)
  else if !aliveMem g.players t then (some .invalidTarget, g)
  else (none, { g with witch_heal_target_id := some t })

/-- Witch poison target submission. -/
def submitWitchKill (g : GameState) (t : Nat) : Option Rej × GameState :=
  if g.phase != "night" ∨ g.witch_kill_used then (some .unavailable, g)
  else if !aliveMem g.players t then (some .invalidTarget, g)
  else (none, { g with witch_kill_target_id := some t })

/-- Black-wolf infection target submission. -/
def submitInfect (g : GameState) (t : Nat) : Option Rej × GameState :=
  if g.phase != "night" ∨ g.black_infect_used then (some .unavailable, g)
  else if !aliveMem g.players t then (some .invalidTarget, g)
  else (none, { g with black_infect_target_id := some t })

/-- Cupid pair submission (`TargetSelect.callback`, `action_key ==
"cupidon"`): the callback stores the selection and marks `cupid_done`
unconditionally, so a re-submission through the still-live menu overwrites
the pairing.  The menu is built at the start of the first night from the
session players and delivers one or two distinct tracked ids; it lives a
bounded time within the session (a replaced session discards the captured
state), modelled here as any started state. -/
def submitCupid (g : GameState) (ts : List Nat) : Option Rej × GameState :=
  if !g.started then (some .unavailable, g)
  else if !(match ts with
            | [_] => true
            | [a, b] => a != b
            | _ => false) then (some .invalidTarget, g)
  else if ts.any (fun t => !memKey g.players t) then (some .invalidTarget, g)
  else (none, { g with cupid_targets := ts, cupid_done := true })

/-- The inbound operations of the engine. -/
inductive Op where
  | create (uid : Nat)
  | join (uid : Nat)
  | leave (uid : Nat)
  | start (uid : Nat) (rho : Nat → String)
  | resolveNight (uid : Nat)
  | finishNight (uid : Nat)
  | mayorStart (uid : Nat)
  | dayvoteStart (uid : Nat)
  | vote (uid target : Nat)
  | voteEnd (uid : Nat)
  | forceEnd (uid : Nat)
  | subGuard (t : Nat)
  | subSeer (t : Nat)
  | subWolves (t : Nat)
  | subWitchHeal (t : Nat)
  | subWitchKill (t : Nat)
  | subInfect (t : Nat)
  | subCupid (ts : List Nat)

/-- Dispatch one inbound operation to its handler. -/
def stepOp (g : GameState) : Op → Option Rej × GameState
  | .create uid => lg_create g uid
  | .join uid => lg_join g uid
  | .leave uid => lg_leave g uid
  | .start uid rho => lg_start g uid rho
  | .resolveNight uid => lg_resolve_night g uid
  | .finishNight uid => lg_finish_night g uid
  | .mayorStart uid => lg_mayor_start g uid
  | .dayvoteStart uid => lg_dayvote_start g uid
  | .vote uid target => lg_vote g uid target
  | .voteEnd uid => lg_vote_end g uid
  | .forceEnd uid => lg_end g uid
  | .subGuard t => submitGuard g t
  | .subSeer t => submitSeer g t
  | .subWolves t => submitWolves g t
  | .subWitchHeal t => submitWitchHeal g t
  | .subWitchKill t => submitWitchKill g t
  | .subInfect t => submitInfect g t
  | .subCupid ts => submitCupid g ts

/-- The states a session can be in: a fresh lobby, or the outcome of any
inbound operation (accepted or rejected) on a reachable state. -/
inductive Reachable : GameState → Prop
  | init (owner : Nat) : Reachable { created_by := owner }
  | step (s : GameState) (op : Op) : Reachable s → Reachable (stepOp s op).2

/-- Living wolf-faction count, as computed inside `check_victory`. -/
def wolvesAlive (g : GameState) : Nat :=
  ((g.players.filter (fun kv => kv.2.alive)).filter
    (fun kv => is_wolf kv.2.role)).length

/-- Living non-wolf count, as computed inside `check_victory`. -/
def othersAlive (g : GameState) : Nat :=
  ((g.players.filter (fun kv => kv.2.alive)).filter
    (fun kv => !is_wolf kv.2.role)).length

/-- A started session with two living wolves and two living villagers. -/
def probe2v2 : GameState :=
  { created_by := 1, started := true,
    players := [(1, { user_id := 1, role := some "loup_garou" }),
      (2, { user_id := 2, role := some "loup_garou" }),
      (3, { user_id := 3, role := some "villageois" }),
      (4, { user_id := 4, role := some "voyante" })] }

/-- A started session whose only wolf is dead. -/
def probeNoWolves : GameState :=
  { created_by := 1, started := true,
    players := [(1, { user_id := 1, role := some "loup_garou", alive := false }),
      (2, { user_id := 2, role := some "villageois" })] }

/-- A started session with three living wolves and four living others. -/
def probe3v4 : GameState :=
  { created_by := 1, started := true,
    players := [(1, { user_id := 1, role := some "loup_garou" }),
      (2, { user_id := 2, role := some "loup_garou" }),
      (3, { user_id := 3, role := some "loup_garou" }),
      (4, { user_id := 4, role := some "villageois" }),
      (5, { user_id := 5, role := some "villageois" }),
      (6, { user_id := 6, role := some "villageois" }),
      (7, { user_id := 7, role := some "villageois" })] }

def WFTargets (g : GameState) : Prop :=
  g.wolf_target_id ≠ some 0 ∧ g.witch_heal_target_id ≠ some 0 ∧
  g.witch_kill_target_id ≠ some 0 ∧ g.black_infect_target_id ≠ some 0

/-- A concrete night where guard, heal, infection and poison all fire. -/
def probeC1 : GameState :=
  { created_by := 1, started := true, phase := "night",
    players := [(1, { user_id := 1, role := some "loup_garou_noir" }),
      (2, { user_id := 2, role := some "villageois" }),
      (3, { user_id := 3, role := some "sorciere" }),
      (4, { user_id := 4, role := some "voyante" })],
    protected_id := some 3,
    wolf_target_id := some 2,
    witch_heal_target_id := some 2,
    witch_kill_target_id := some 4,
    black_infect_target_id := some 2 }

/-- A night where the wolves target player 2, the guard protects player 3
and the witch heals player 2. -/
def probeC4 : GameState :=
  { created_by := 1, started := true, phase := "night",
    players := [(1, { user_id := 1, role := some "loup_garou" }),
      (2, { user_id := 2, role := some "villageois" }),
      (3, { user_id := 3, role := some "sorciere" }),
      (4, { user_id := 4, role := some "voyante" })],
    protected_id := some 3,
    wolf_target_id := some 2,
    witch_heal_target_id := some 2 }

/-- The identities the death closure is specified to reach: a direct kill
that is present and alive, or — inductively — the living bonded partner of
a reached identity. -/
inductive ReachDeath (ps : List (Nat × PlayerState)) (D : List Nat) : Nat → Prop
  | seed (d : Nat) : d ∈ D → aliveMem ps d = true → ReachDeath ps D d
  | chain (p l : Nat) (P : PlayerState) : ReachDeath ps D p →
      pfind ps p = some P → P.lover_id = some l → aliveMem ps l = true →
      ReachDeath ps D l

/-- The number of player keys not yet finalized; the loop's fuel budget. -/
def unvisited (ps : List (Nat × PlayerState)) (final : List Nat) : Nat :=
  ((ps.map Prod.fst).filter (fun k => !(final.contains k))).length

/-- A three-player session where 1 and 2 are a living bonded pair. -/
def probeC5 : List (Nat × PlayerState) :=
  [(1, { user_id := 1, lover_id := some 2 }),
   (2, { user_id := 2, lover_id := some 1 }),
   (3, { user_id := 3 })]

/-- A night where the witch poisons the absent id 9. -/
def probeC10 : GameState :=
  { created_by := 1, started := true, phase := "night",
    players := [(1, { user_id := 1, role := some "loup_garou" }),
      (2, { user_id := 2, role := some "villageois" }),
      (3, { user_id := 3, role := some "sorciere" })],
    witch_kill_target_id := some 9 }

/-- A night satisfying all of claim C3's hypotheses — infection unspent and
aimed at the wolves' living non-wolf victim — where the witch additionally
poisons the same player. -/
def probeC3x : GameState :=
  { created_by := 1, started := true, phase := "night",
    players := [(1, { user_id := 1, role := some "loup_garou_noir" }),
      (2, { user_id := 2, role := some "villageois" }),
      (3, { user_id := 3, role := some "sorciere" }),
      (4, { user_id := 4, role := some "voyante" })],
    wolf_target_id := some 2,
    witch_kill_target_id := some 2,
    black_infect_target_id := some 2 }

/-- The same night as `probeC3x` but with no poison and no bonds. -/
def probeC3w : GameState :=
  { created_by := 1, started := true, phase := "night",
    players := [(1, { user_id := 1, role := some "loup_garou_noir" }),
      (2, { user_id := 2, role := some "villageois" }),
      (3, { user_id := 3, role := some "sorciere" }),
      (4, { user_id := 4, role := some "voyante" })],
    wolf_target_id := some 2,
    black_infect_target_id := some 2 }

def getCount (cs : List (Nat × Nat)) (t : Nat) : Nat :=
  (cs.lookup t).getD 0

/-- `t in counts`. -/
def keyIn (cs : List (Nat × Nat)) (t : Nat) : Bool :=
  (cs.lookup t).isSome

/-- The spec-level weighted total of the ballots cast for `t`. -/
def weightedTotal (g : GameState) (t : Nat) : Nat :=
  ((g.vote.votes.filter (fun vt => vt.2 = t)).map (fun vt => voteWeight g vt.1)).sum

/-- `best` as computed inside `tally_votes`. -/
def tallyBest (g : GameState) : Nat :=
  (((tallyCounts g).map (fun kv => kv.2)).foldl max 0)

/-- `top` as computed inside `tally_votes`. -/
def tallyTop (g : GameState) : List Nat :=
  (((tallyCounts g).filter (fun kv => kv.2 = tallyBest g)).map (fun kv => kv.1))

def probeC6a : GameState :=
  { created_by := 1, started := true, phase := "day",
    vote := { active := true, kind := "dayvote", votes := [(1, 5), (2, 5), (3, 6), (4, 6)] } }

def probeC6b : GameState :=
  { created_by := 1, started := true, phase := "day",
    mayor_id := some 10,
    vote := { active := true, kind := "daykill", votes := [(10, 5), (11, 5), (12, 6)] } }

/-- The `lover_id` value seen at a key, used to transport bond facts across
player-list rewrites that keep every lover value. -/
def loverAt (ps : List (Nat × PlayerState)) (p : Nat) : Option (Option Nat) :=
  Option.map PlayerState.lover_id (pfind ps p)

/-- The session invariants, preserved by every inbound operation, that
carry the Cupid-bond guarantees: a night, day or active-vote session is
started, a submitted two-target pairing is distinct, and an unstarted
session has no bonds. -/
def LoverInv (g : GameState) : Prop :=
  (g.phase = "night" → g.started = true) ∧
  (g.phase = "day" → g.started = true) ∧
  (g.vote.active = true → g.started = true) ∧
  (∀ a b, g.cupid_targets = [a, b] → a ≠ b) ∧
  (g.started = false → ∀ kv ∈ g.players, kv.2.lover_id = none)

/-- Run a list of inbound operations from a state, keeping the state of
each call. -/
def runOps (g : GameState) : List Op → GameState
  | [] => g
  | op :: rest => runOps (stepOp g op).2 rest

def rhoC9 : Nat → String := fun k => if k ≤ 2 then "loup_garou" else "villageois"

/-- A session trace that submits the Cupid pairing on the first night but
runs its first `ResolveNight` only on the second night: eight joins, the
start, the pairing submission, then FinishNight, a day vote round and its
end bring the session to its second night with the pairing still
unapplied. -/
def c9ops : List Op :=
  [.join 1, .join 2, .join 3, .join 4, .join 5, .join 6, .join 7, .join 8,
   .start 1 rhoC9, .subCupid [4, 5], .finishNight 1, .dayvoteStart 1,
   .voteEnd 1]

def probeC9x : GameState := runOps { created_by := 1 } c9ops

def probeC9w : GameState := (stepOp probeC9x (.resolveNight 1)).2

/-- Continuing from `probeC9w` (bond 4-5 set): the cupid re-submits the
pairing [4, 6] through the still-live menu and the owner resolves again,
re-pointing participant 4 at 6 while 5 still points at 4. -/
def probeC9y : GameState := runOps probeC9w [.subCupid [4, 6], .resolveNight 1]

/-- The tracked state of participant 4 in `probeC9w`. -/
def stC9 : PlayerState :=
  { user_id := 4, role := some "villageois", lover_id := some 5 }

/-- C7: for a started session, `check_victory` reports a village win
exactly when no living wolf remains, a wolves win exactly when the living
wolves are at least as many as the living non-wolves and at least one wolf
lives, and no winner otherwise. -/
theorem C7_check_victory (g : GameState) (hs : g.started = true) :
    (check_victory g = some .village ↔ wolvesAlive g = 0) ∧
    (check_victory g = some .wolves ↔
      (wolvesAlive g ≥ othersAlive g ∧ wolvesAlive g > 0)) ∧
    (check_victory g = none ↔
      ¬(wolvesAlive g = 0 ∨ (wolvesAlive g ≥ othersAlive g ∧ wolvesAlive g > 0))) := by
  have e1 : wolvesAlive g = ((g.players.filter (fun kv => kv.2.alive)).filter
      (fun kv => is_wolf kv.2.role)).length := rfl
  have e2 : othersAlive g = ((g.players.filter (fun kv => kv.2.alive)).filter
      (fun kv => !is_wolf kv.2.role)).length := rfl
  simp only [check_victory, hs]
  rw [← e1, ← e2]
  clear e1 e2
  generalize wolvesAlive g = w
  generalize othersAlive g = o
  split_ifs with h1 h2 <;> simp_all

/-- C7 witness: the spec's three probe sessions — two living wolves versus
two living villagers is a wolves win, zero living wolves is a village win,
three wolves versus four others is no winner yet. -/
theorem C7_check_victory_witness :
    (probe2v2.started = true ∧ check_victory probe2v2 = some .wolves) ∧
    check_victory probeNoWolves = some .village ∧
    check_victory probe3v4 = none := by
  refine ⟨⟨rfl, ?_⟩, ?_, ?_⟩
  · exact ((C7_check_victory _ rfl).2.1).2 (by decide)
  · exact ((C7_check_victory _ rfl).1).2 (by decide)
  · exact ((C7_check_victory _ rfl).2.2).2 (by decide)

/-- C2: `role_distribution` fails with the invalid-party-size error exactly
outside 8..15; inside that range it returns `n` roles — whatever the
shuffle permutation — with exactly one seer, potion-maker, guard, hunter
and cupid, the wolf counts of the size table (black wolf present exactly
once from 10 players up), a little girl exactly when `n ≥ 10`, and plain
villagers in every remaining slot. -/
theorem C2_role_distribution (n : Int) :
    (n < 8 ∨ 15 < n → role_distribution n = .error "Partie prévue pour 8 à 15 joueurs.") ∧
    (8 ≤ n → n ≤ 15 → ∃ r, role_distribution n = .ok r ∧
      ∀ l : List String, r.Perm l →
        (l.length : Int) = n ∧
        List.count "voyante" l = 1 ∧ List.count "sorciere" l = 1 ∧
        List.count "garde" l = 1 ∧ List.count "chasseur" l = 1 ∧
        List.count "cupidon" l = 1 ∧
        (n ≤ 9 → List.count "loup_garou" l = 2 ∧ List.count "loup_garou_noir" l = 0) ∧
        (10 ≤ n → n ≤ 12 → List.count "loup_garou" l = 2 ∧ List.count "loup_garou_noir" l = 1) ∧
        (13 ≤ n → List.count "loup_garou" l = 3 ∧ List.count "loup_garou_noir" l = 1) ∧
        List.count "petite_fille" l = (if 10 ≤ n then 1 else 0) ∧
        List.count "villageois" l =
          (n - (if n ≤ 9 then 7 else if n ≤ 12 then 9 else 10)).toNat ∧
        (∀ x ∈ l, x ∈ ["voyante", "sorciere", "garde", "chasseur", "cupidon",
          "loup_garou", "loup_garou_noir", "petite_fille", "villageois"])) := by
  constructor
  · intro h
    unfold role_distribution
    rw [if_pos h]
  · intro h8 h15
    interval_cases n <;>
      refine ⟨_, rfl, fun l hl => ?_⟩ <;>
      simp only [← hl.count_eq, ← hl.length_eq, ← hl.mem_iff] <;>
      decide

/-- C2 witness: the theorem instantiated at `n = 8` with the identity
permutation of the computed list. -/
theorem C2_role_distribution_witness :
    (8 : Int) ≤ 8 ∧ (8 : Int) ≤ 15 ∧
    ∃ r, role_distribution 8 = .ok r ∧
      (r.length : Int) = 8 ∧ List.count "loup_garou" r = 2 := by
  refine ⟨by decide, by decide, ?_⟩
  obtain ⟨r, hr, hp⟩ := (C2_role_distribution 8).2 (by decide) (by decide)
  exact ⟨r, hr, (hp r (List.Perm.refl r)).1,
    ((hp r (List.Perm.refl r)).2.2.2.2.2.2.1 (by decide)).1⟩

/-- C8: whenever an inbound operation is rejected — no session, wrong
phase, caller not authorized, already joined, not joined, invalid target,
party size out of range, no active vote, menu unavailable — the session
state is returned exactly as it was. -/
theorem C8_reject_no_mutation (g : GameState) (op : Op)
    (h : (stepOp g op).1.isSome = true) : (stepOp g op).2 = g := by
  cases op <;>
    simp only [stepOp, lg_create, lg_join, lg_leave, lg_start, lg_resolve_night,
      lg_finish_night, lg_mayor_start, lg_dayvote_start, lg_vote, lg_vote_end,
      lg_end, submitGuard, submitSeer, submitWolves, submitWitchHeal,
      submitWitchKill, submitInfect, submitCupid] at h ⊢ <;>
    split_ifs at h ⊢ <;>
    first
      | rfl
      | simp_all

/-- C8 witness: a `join` call on an already-started session is rejected
and leaves the state unchanged. -/
theorem C8_reject_no_mutation_witness :
    ((stepOp { created_by := 1, started := true, phase := "night" }
        (.join 2)).1.isSome = true) ∧
      (stepOp { created_by := 1, started := true, phase := "night" }
        (.join 2)).2 = { created_by := 1, started := true, phase := "night" } :=
  ⟨by decide, C8_reject_no_mutation _ _ (by decide)⟩

theorem truthy_eq_isSome (o : Option Nat) (ho : o ≠ some 0) :
    truthy o = o.isSome := by
  cases o with
  | none => rfl
  | some n =>
    simp only [truthy, Option.isSome_some, bne_iff_ne, ne_eq, decide_eq_true_eq]
    intro hn
    exact ho (by rw [hn])

theorem healFires_eq (g : GameState) (hh : g.witch_heal_target_id ≠ some 0) :
    healFires g = sHealFires g := by
  unfold healFires sHealFires
  rw [truthy_eq_isSome _ hh]

theorem guardStep_eq (g : GameState) (v : Option Nat) (hv : v ≠ some 0) :
    guardStep g v = sGuardStep g v := by
  unfold guardStep sGuardStep
  rw [truthy_eq_isSome _ hv]

theorem infectOk_eq (g : GameState) (hb : g.black_infect_target_id ≠ some 0) :
    infectOk g = sInfectOk g := by
  unfold infectOk sInfectOk
  rw [truthy_eq_isSome _ hb]

theorem poisonStep_eq (g : GameState) (d : List Nat)
    (hk : g.witch_kill_target_id ≠ some 0) :
    poisonStep g d = sPoisonStep g d := by
  unfold poisonStep sPoisonStep
  rw [truthy_eq_isSome _ hk]
  cases g.witch_kill_target_id <;> simp

theorem victimList_toList (v : Option Nat) (hv : v ≠ some 0) :
    victimList v = v.toList := by
  cases v with
  | none => rfl
  | some n =>
    have : n ≠ 0 := fun h => hv (by rw [h])
    simp [victimList, truthy, this]

theorem ite_none_ne (c : Prop) [Decidable c] (v : Option Nat)
    (hv : v ≠ some 0) : (if c then none else v) ≠ some 0 := by
  split_ifs <;> simp_all

theorem healConsume_players (g : GameState) :
    (healConsume g).players = g.players := by
  unfold healConsume; split_ifs <;> rfl

theorem healConsume_black_target (g : GameState) :
    (healConsume g).black_infect_target_id = g.black_infect_target_id := by
  unfold healConsume; split_ifs <;> rfl

theorem healConsume_black_used (g : GameState) :
    (healConsume g).black_infect_used = g.black_infect_used := by
  unfold healConsume; split_ifs <;> rfl

theorem infectOk_healConsume (g : GameState) :
    infectOk (healConsume g) = infectOk g := by
  unfold infectOk
  rw [healConsume_players, healConsume_black_target, healConsume_black_used]

theorem healConsume_eq (g : GameState) (hh : g.witch_heal_target_id ≠ some 0) :
    healConsume g = sHealConsume g := by
  unfold healConsume sHealConsume
  rw [healFires_eq g hh]

theorem healClear_eq (g : GameState) (hh : g.witch_heal_target_id ≠ some 0)
    (v : Option Nat) : healClear g v = sHealClear g v := by
  unfold healClear sHealClear
  rw [healFires_eq g hh]

theorem healConsume_kill_target (g : GameState) :
    (healConsume g).witch_kill_target_id = g.witch_kill_target_id := by
  unfold healConsume; split_ifs <;> rfl

theorem healClear_ne0 (g : GameState) (v : Option Nat) (hv : v ≠ some 0) :
    healClear g v ≠ some 0 := by
  unfold healClear; exact ite_none_ne _ _ hv

theorem sHealFires_update (g : GameState) (P : List (Nat × PlayerState))
    (b : Bool) (o : Option Nat) :
    sHealFires
      { g with players := P, black_infect_used := b, black_infect_target_id := o } =
      sHealFires g := rfl

theorem sHealClear_update (g : GameState) (P : List (Nat × PlayerState))
    (b : Bool) (o : Option Nat) (v : Option Nat) :
    sHealClear
      { g with players := P, black_infect_used := b, black_infect_target_id := o }
      v = sHealClear g v := rfl

theorem sHealConsume_kill_target (g : GameState) :
    (sHealConsume g).witch_kill_target_id = g.witch_kill_target_id := by
  unfold sHealConsume; split_ifs <;> rfl

theorem sHealClear_ne0 (g : GameState) (v : Option Nat) (hv : v ≠ some 0) :
    sHealClear g v ≠ some 0 := by
  unfold sHealClear; exact ite_none_ne _ _ hv

theorem clear_comm3 (c : Bool) (a b v : Option Nat) :
    (if ((if (c && (v == a)) = true then none else v) == b) = true then none
     else if (c && (v == a)) = true then none else v) =
    (if (c && ((if (v == b) = true then none else v) == a)) = true then none
     else if (v == b) = true then none else v) := by
  cases c
  · simp
  · simp only [Bool.true_and]
    by_cases h1 : (v == a) = true <;> by_cases h2 : (v == b) = true <;>
      simp_all <;> split_ifs <;> simp_all

theorem sHealClear_comm (g : GameState) (t : Nat) (v : Option Nat) :
    (if (sHealClear g v == some t) = true then none else sHealClear g v) =
    sHealClear g (if (v == some t) = true then none else v) := by
  unfold sHealClear
  exact clear_comm3 (sHealFires g) g.witch_heal_target_id (some t) v

theorem consume_update_comm (g : GameState)
    (hh : g.witch_heal_target_id ≠ some 0) (P : List (Nat × PlayerState))
    (t : Nat) :
    ({ healConsume g with players := P, black_infect_used := true, black_infect_target_id := some t } : GameState) =
    sHealConsume
      { g with players := P, black_infect_used := true, black_infect_target_id := some t } := by
  unfold healConsume sHealConsume
  rw [show sHealFires { g with players := P, black_infect_used := true, black_infect_target_id := some t } = sHealFires g from rfl, ← healFires_eq g hh]
  split_ifs <;> rfl

/-- C1: for every night-action record whose submitted targets are real
discord ids (never the falsy id 0), the effect block of `lg_finish_night`
— which textually runs guard save, then heal, then infection, then poison
— computes exactly the same state and the same direct-kill list as the
spec's numbered order (guard save, then infection, then heal compared
against the then-current tentative victim, then the unconditional poison),
`specNightKills`, whose steps 5-6 build the direct-kill set as the
still-set tentative victim plus the poison target. -/
theorem C1_resolution_order (g : GameState) (h : WFTargets g) :
    nightKills g = specNightKills g := by
  obtain ⟨hw, hh, hk, hb⟩ := h
  have hv1 : guardStep g g.wolf_target_id ≠ some 0 := ite_none_ne _ _ hw
  unfold nightKills specNightKills
  rw [← guardStep_eq g _ hw]
  by_cases hio : infectOk g = true
  case neg =>
    -- no infection: both pipelines are guard, heal, poison
    have hio2 : infectOk (healConsume g) = false := by
      rw [infectOk_healConsume]; exact eq_false_of_ne_true hio
    have hsio : sInfectOk g = false := by
      rw [← infectOk_eq g hb]; exact eq_false_of_ne_true hio
    simp only [infectApply, sInfectApply, hio2, hsio, Bool.false_eq_true,
      if_false]
    rw [← healClear_eq g hh, ← healConsume_eq g hh,
      victimList_toList _ (healClear_ne0 g _ hv1),
      poisonStep_eq _ _ (by rw [healConsume_kill_target]; exact hk)]
  case pos =>
    have hbt : ∃ t, g.black_infect_target_id = some t := by
      rcases ho : g.black_infect_target_id with _ | t
      · rw [infectOk, ho] at hio; simp [truthy] at hio
      · exact ⟨t, rfl⟩
    obtain ⟨t, hbt⟩ := hbt
    have hio2 : infectOk (healConsume g) = true := by
      rw [infectOk_healConsume]; exact hio
    have hsio : sInfectOk g = true := by rw [← infectOk_eq g hb]; exact hio
    have hbt2 : (healConsume g).black_infect_target_id = some t := by
      rw [healConsume_black_target]; exact hbt
    simp only [infectApply, sInfectApply, hio2, hsio, if_true, hbt, hbt2]
    rw [healConsume_players, healClear_eq g hh, sHealClear_update,
      sHealClear_comm g t,
      victimList_toList _ (sHealClear_ne0 g _ (ite_none_ne _ _ hv1)),
      consume_update_comm g hh,
      poisonStep_eq _ _ (by
        rw [sHealConsume_kill_target]
        exact hk)]
    rfl

/-- C1 witness: the order-equivalence theorem applied to `probeC1`. -/
theorem C1_resolution_order_witness :
    WFTargets probeC1 ∧ nightKills probeC1 = specNightKills probeC1 :=
  have hwf : WFTargets probeC1 := ⟨by decide, by decide, by decide, by decide⟩
  ⟨hwf, C1_resolution_order probeC1 hwf⟩

theorem pfind_pmod (ps : List (Nat × PlayerState)) (k x : Nat)
    (f : PlayerState → PlayerState) :
    pfind (pmod ps k f) x =
      if x = k then (pfind ps x).map f else pfind ps x := by
  induction ps with
  | nil => simp [pmod, pfind]
  | cons kv rest ih =>
    obtain ⟨a, b⟩ := kv
    have hstep : pmod ((a, b) :: rest) k f =
        (if a = k then (a, f b) else (a, b)) :: pmod rest k f := rfl
    rw [hstep]
    by_cases hak : a = k
    · rw [if_pos hak]
      subst hak
      by_cases hax : a = x
      · subst hax
        simp [pfind]
      · simp [pfind, hax, ih]
    · rw [if_neg hak]
      by_cases hax : a = x
      · subst hax
        simp [pfind, hak]
      · simp [pfind, hax, ih]

theorem poisonStep_players (g : GameState) (d : List Nat) :
    ((poisonStep g d).1).players = g.players := by
  unfold poisonStep; split_ifs <;> rfl

theorem poisonStep_heal_used (g : GameState) (d : List Nat) :
    ((poisonStep g d).1).witch_heal_used = g.witch_heal_used := by
  unfold poisonStep; split_ifs <;> rfl

theorem infectApply_heal_used (g : GameState) (v : Option Nat) :
    ((infectApply g v).2).witch_heal_used = g.witch_heal_used := by
  unfold infectApply
  split_ifs
  · cases g.black_infect_target_id <;> rfl
  · rfl

theorem infectApply_kill_target (g : GameState) (v : Option Nat) :
    ((infectApply g v).2).witch_kill_target_id = g.witch_kill_target_id := by
  unfold infectApply
  split_ifs
  · cases g.black_infect_target_id <;> rfl
  · rfl

theorem healConsume_heal_used (g : GameState) (hf : healFires g = true) :
    (healConsume g).witch_heal_used = true := by
  unfold healConsume; rw [hf]; rfl

theorem applyNight_heal_used (g : GameState) :
    (applyNight g).witch_heal_used = (nightKills g).1.witch_heal_used := by
  simp only [applyNight]
  split <;> rfl

theorem applyNight_players (g : GameState) :
    (applyNight g).players =
      markDead (nightKills g).1.players
        (expandDeaths (nightKills g).1.players (nightKills g).2) := by
  simp only [applyNight]
  split <;> rfl

theorem expandDeaths_nil (ps : List (Nat × PlayerState)) :
    expandDeaths ps [] = [] := rfl

theorem markDead_nil (ps : List (Nat × PlayerState)) : markDead ps [] = ps := rfl

theorem infectApply_alive (g : GameState) (v : Option Nat) (p : Nat) :
    Option.map PlayerState.alive (pfind ((infectApply g v).2).players p) =
      Option.map PlayerState.alive (pfind g.players p) := by
  unfold infectApply
  split_ifs
  · cases g.black_infect_target_id with
    | none => rfl
    | some t =>
      simp only [pfind_pmod]
      split_ifs <;> cases pfind g.players p <;> simp
  · rfl

/-- C4: in the night phase, with the heal unspent and a heal target
submitted, `lg_finish_night` succeeds and marks the heal consumed whether
or not the target matches the victim; and when the guard did not protect
the wolves' victim, the heal targets exactly that victim and no poison was
submitted, the direct-kill list is empty and every participant's alive
flag — bonded or not — is exactly what it was before the call. -/
theorem C4_heal_cancels_kill (g : GameState) (hph : g.phase = "night")
    (hu : g.witch_heal_used = false) (h : Nat)
    (hht : g.witch_heal_target_id = some h) (h0 : h ≠ 0) :
    (lg_finish_night g g.created_by).1 = none ∧
    ((lg_finish_night g g.created_by).2).witch_heal_used = true ∧
    (∀ v, g.wolf_target_id = some v → g.protected_id ≠ some v → h = v →
      g.witch_kill_target_id = none →
      (nightKills g).2 = [] ∧
      (∀ p, Option.map PlayerState.alive
          (pfind ((lg_finish_night g g.created_by).2).players p) =
        Option.map PlayerState.alive (pfind g.players p))) := by
  have hf : healFires g = true := by
    simp [healFires, hht, truthy, hu, h0]
  have hok : lg_finish_night g g.created_by = (none, applyNight g) := by
    simp [lg_finish_night, hph]
  refine ⟨by rw [hok], ?_, ?_⟩
  · rw [hok]
    show (applyNight g).witch_heal_used = true
    rw [applyNight_heal_used]
    show ((poisonStep (infectApply (healConsume g)
      (healClear g (guardStep g g.wolf_target_id))).2
      (victimList (infectApply (healConsume g)
        (healClear g (guardStep g g.wolf_target_id))).1)).1).witch_heal_used = true
    rw [poisonStep_heal_used, infectApply_heal_used, healConsume_heal_used g hf]
  · intro v hwt hpr hv hkt
    have hv1 : guardStep g g.wolf_target_id = some v := by
      unfold guardStep
      rw [hwt]
      have : (g.protected_id == some v) = false := by
        simp [hpr]
      simp [truthy, this, hv ▸ h0]
    have hv2 : healClear g (guardStep g g.wolf_target_id) = none := by
      unfold healClear
      rw [hv1, hf, hht, hv]
      simp
    have hv3 : (infectApply (healConsume g) none).1 = none := by
      unfold infectApply
      split_ifs
      · cases (healConsume g).black_infect_target_id <;> simp
      · rfl
    have hdeaths : (nightKills g).2 = [] := by
      show (poisonStep (infectApply (healConsume g)
        (healClear g (guardStep g g.wolf_target_id))).2
        (victimList (infectApply (healConsume g)
          (healClear g (guardStep g g.wolf_target_id))).1)).2 = []
      rw [hv2, hv3]
      unfold poisonStep
      rw [infectApply_kill_target, healConsume_kill_target g, hkt]
      simp [truthy, victimList]
    refine ⟨hdeaths, ?_⟩
    intro p
    rw [hok]
    show Option.map PlayerState.alive (pfind (applyNight g).players p) = _
    rw [applyNight_players, hdeaths, expandDeaths_nil, markDead_nil]
    show Option.map PlayerState.alive
      (pfind ((poisonStep (infectApply (healConsume g)
        (healClear g (guardStep g g.wolf_target_id))).2
        (victimList (infectApply (healConsume g)
          (healClear g (guardStep g g.wolf_target_id))).1)).1).players p) = _
    rw [poisonStep_players, infectApply_alive, healConsume_players]

/-- C4 witness: the heal-cancels-kill theorem applied to `probeC4`. -/
theorem C4_heal_cancels_kill_witness :
    probeC4.phase = "night" ∧ probeC4.witch_heal_used = false ∧
    (lg_finish_night probeC4 1).1 = none ∧
    ((lg_finish_night probeC4 1).2).witch_heal_used = true ∧
    (nightKills probeC4).2 = [] ∧
    Option.map PlayerState.alive (pfind ((lg_finish_night probeC4 1).2).players 2) =
      Option.map PlayerState.alive (pfind probeC4.players 2) := by
  have hc := C4_heal_cancels_kill probeC4 rfl rfl 2 rfl (by decide)
  have hd := hc.2.2 2 rfl (by decide) rfl rfl
  exact ⟨rfl, rfl, hc.1, hc.2.1, hd.1, hd.2 2⟩

theorem reach_alive {ps : List (Nat × PlayerState)} {D : List Nat} {x : Nat}
    (h : ReachDeath ps D x) : aliveMem ps x = true := by
  cases h with
  | seed d hd ha => exact ha
  | chain p l P hp hP hl ha => exact ha

theorem pfind_mem_keys {ps : List (Nat × PlayerState)} {x : Nat} {P : PlayerState}
    (h : pfind ps x = some P) : x ∈ ps.map Prod.fst := by
  induction ps with
  | nil => simp [pfind] at h
  | cons kv rest ih =>
    obtain ⟨a, b⟩ := kv
    by_cases hax : a = x
    · simp [hax]
    · simp only [pfind, if_neg hax] at h
      simpa using Or.inr (ih h)

theorem aliveMem_of {ps : List (Nat × PlayerState)} {d : Nat} {p : PlayerState}
    (hpd : pfind ps d = some p) (hal : p.alive = true) :
    aliveMem ps d = true := by
  unfold aliveMem
  rw [hpd]
  exact hal

theorem filter_impl_le (l : List Nat) (p q : Nat → Bool)
    (h : ∀ k, p k = true → q k = true) :
    (l.filter p).length ≤ (l.filter q).length := by
  induction l with
  | nil => simp
  | cons a t ih =>
    by_cases hp : p a = true
    · simp [List.filter, hp, h a hp]
      omega
    · have hp' : p a = false := by simpa using hp
      cases hq : q a <;> simp [List.filter, hp', hq] <;> omega

theorem filter_notmem_cons_lt (l : List Nat) (final : List Nat) (x : Nat)
    (hx : x ∈ l) (hxf : x ∉ final) :
    (l.filter (fun k => !((x :: final).contains k))).length <
      (l.filter (fun k => !(final.contains k))).length := by
  induction l with
  | nil => cases hx
  | cons a t ih =>
    by_cases hax : a = x
    · subst hax
      have h1 : ((a :: final).contains a) = true := by simp
      have h2 : (final.contains a) = false := by simpa using hxf
      simp only [List.filter, h1, h2, Bool.not_true, Bool.not_false]
      have := filter_impl_le t (fun k => !((a :: final).contains k))
        (fun k => !(final.contains k)) (by
          intro k hk
          simp only [Bool.not_eq_true'] at hk ⊢
          simp only [List.contains_cons, Bool.or_eq_false_iff] at hk ⊢
          exact hk.2)
      simp only [List.length_cons]
      omega
    · rcases List.mem_cons.mp hx with h | h
      · exact absurd h.symm hax
      · have hsame : ((x :: final).contains a) = (final.contains a) := by
          simp only [List.contains_cons]
          have : (a == x) = false := by simpa using hax
          simp [this]
        have := ih h
        cases hfa : (final.contains a) <;>
          simp only [List.filter, hsame, hfa, Bool.not_true, Bool.not_false] <;>
          (try simp only [List.length_cons]) <;> omega

theorem unvisited_cons_lt (ps : List (Nat × PlayerState)) (final : List Nat)
    (x : Nat) (hx : x ∈ ps.map Prod.fst) (hxf : x ∉ final) :
    unvisited ps (x :: final) < unvisited ps final := by
  unfold unvisited
  exact filter_notmem_cons_lt _ _ _ hx hxf

theorem terminal_complete {ps : List (Nat × PlayerState)} {D final : List Nat}
    (hseeds : ∀ d ∈ D, aliveMem ps d = true → d ∈ final ∨ d ∈ ([] : List Nat))
    (hclosed : ∀ p ∈ final, ∀ P l, pfind ps p = some P → P.lover_id = some l →
      aliveMem ps l = true → l ∈ final ∨ l ∈ ([] : List Nat)) :
    ∀ x, ReachDeath ps D x → x ∈ final := by
  intro x hx
  induction hx with
  | seed d hd ha =>
    rcases hseeds d hd ha with h | h
    · exact h
    · simp at h
  | chain p l P hp hP hl ha ih =>
    rcases hclosed p ih P l hP hl ha with h | h
    · exact h
    · simp at h

theorem expandLoop_char (ps : List (Nat × PlayerState)) (D : List Nat)
    (h0 : pfind ps 0 = none) :
    ∀ (fuel : Nat) (stack final : List Nat),
      stack.length + unvisited ps final ≤ fuel →
      (∀ x ∈ final, ReachDeath ps D x) →
      (∀ x ∈ stack, x ∈ D ∨ ∃ p P, ReachDeath ps D p ∧ pfind ps p = some P ∧
        P.lover_id = some x) →
      (∀ d ∈ D, aliveMem ps d = true → d ∈ final ∨ d ∈ stack) →
      (∀ p ∈ final, ∀ P l, pfind ps p = some P → P.lover_id = some l →
        aliveMem ps l = true → l ∈ final ∨ l ∈ stack) →
      (∀ x ∈ expandLoop ps fuel stack final, ReachDeath ps D x) ∧
      (∀ x, ReachDeath ps D x → x ∈ expandLoop ps fuel stack final) := by
  intro fuel
  induction fuel with
  | zero =>
    intro stack final hfuel hfin hstack hseeds hclosed
    have hs : stack = [] := by
      cases stack with
      | nil => rfl
      | cons a l => simp [List.length_cons] at hfuel
    subst hs
    have heq : expandLoop ps 0 [] final = final := rfl
    rw [heq]
    exact ⟨hfin, terminal_complete hseeds hclosed⟩
  | succ fuel ih =>
    intro stack final hfuel hfin hstack hseeds hclosed
    cases stack with
    | nil =>
      have heq : expandLoop ps (fuel + 1) [] final = final := rfl
      rw [heq]
      exact ⟨hfin, terminal_complete hseeds hclosed⟩
    | cons d rest =>
      simp only [List.length_cons] at hfuel
      by_cases hdf : d ∈ final
      · have heq : expandLoop ps (fuel + 1) (d :: rest) final =
            expandLoop ps fuel rest final := by
          simp [expandLoop, hdf]
        rw [heq]
        refine ih rest final (by omega) hfin
          (fun x hx => hstack x (List.mem_cons_of_mem d hx)) ?_ ?_
        · intro e he ha
          rcases hseeds e he ha with h | h
          · exact Or.inl h
          · rcases List.mem_cons.mp h with h | h
            · exact Or.inl (h ▸ hdf)
            · exact Or.inr h
        · intro q hq Q l hQ hl ha
          rcases hclosed q hq Q l hQ hl ha with h | h
          · exact Or.inl h
          · rcases List.mem_cons.mp h with h | h
            · exact Or.inl (h ▸ hdf)
            · exact Or.inr h
      · cases hpd : pfind ps d with
        | none =>
          have hda : aliveMem ps d = false := by
            unfold aliveMem
            rw [hpd]
          have heq : expandLoop ps (fuel + 1) (d :: rest) final =
              expandLoop ps fuel rest final := by
            simp [expandLoop, hdf, hpd]
          rw [heq]
          refine ih rest final (by omega) hfin
            (fun x hx => hstack x (List.mem_cons_of_mem d hx)) ?_ ?_
          · intro e he ha
            rcases hseeds e he ha with h | h
            · exact Or.inl h
            · rcases List.mem_cons.mp h with h | h
              · rw [h] at ha
                rw [hda] at ha
                cases ha
              · exact Or.inr h
          · intro q hq Q l hQ hl ha
            rcases hclosed q hq Q l hQ hl ha with h | h
            · exact Or.inl h
            · rcases List.mem_cons.mp h with h | h
              · rw [h] at ha
                rw [hda] at ha
                cases ha
              · exact Or.inr h
        | some p =>
          by_cases hal : p.alive = true
          · -- d is finalized
            have hdmem : d ∈ ps.map Prod.fst := pfind_mem_keys hpd
            have hdReach : ReachDeath ps D d := by
              rcases hstack d (List.mem_cons_self d rest) with h | ⟨q, Q, hq, hQ, hlov⟩
              · exact .seed d h (aliveMem_of hpd hal)
              · exact .chain q d Q hq hQ hlov (aliveMem_of hpd hal)
            have hlt := unvisited_cons_lt ps final d hdmem hdf
            have hfin2 : ∀ x ∈ d :: final, ReachDeath ps D x := by
              intro x hx
              rcases List.mem_cons.mp hx with h | h
              · exact h ▸ hdReach
              · exact hfin x h
            have hseeds2 : ∀ (st : List Nat), (∀ e ∈ D, aliveMem ps e = true →
                e ∈ final ∨ e ∈ d :: rest) → rest.Subset st →
                ∀ e ∈ D, aliveMem ps e = true → e ∈ d :: final ∨ e ∈ st := by
              intro st hsd hsub e he ha
              rcases hsd e he ha with h | h
              · exact Or.inl (List.mem_cons_of_mem d h)
              · rcases List.mem_cons.mp h with h | h
                · exact Or.inl (h ▸ List.mem_cons_self d final)
                · exact Or.inr (hsub h)
            cases hplover : p.lover_id with
            | none =>
              have heq : expandLoop ps (fuel + 1) (d :: rest) final =
                  expandLoop ps fuel rest (d :: final) := by
                simp [expandLoop, hdf, hpd, hal, hplover]
              rw [heq]
              refine ih rest (d :: final) (by omega) hfin2
                (fun x hx => hstack x (List.mem_cons_of_mem d hx))
                (hseeds2 rest hseeds (fun a ha => ha)) ?_
              intro q hq Q l hQ hl ha
              rcases List.mem_cons.mp hq with h | h
              · -- q = d : its lover is none, contradiction with some l
                rw [h, hpd] at hQ
                cases hQ
                rw [hplover] at hl
                cases hl
              · rcases hclosed q h Q l hQ hl ha with h2 | h2
                · exact Or.inl (List.mem_cons_of_mem d h2)
                · rcases List.mem_cons.mp h2 with h2 | h2
                  · exact Or.inl (h2 ▸ List.mem_cons_self d final)
                  · exact Or.inr h2
            | some l =>
              by_cases hpush : l ≠ 0 ∧ aliveMem ps l = true
              · have heq : expandLoop ps (fuel + 1) (d :: rest) final =
                    expandLoop ps fuel (l :: rest) (d :: final) := by
                  simp [expandLoop, hdf, hpd, hal, hplover, hpush]
                rw [heq]
                refine ih (l :: rest) (d :: final)
                  (by simp only [List.length_cons]; omega) hfin2 ?_
                  (hseeds2 (l :: rest) hseeds
                    (fun a ha => List.mem_cons_of_mem l ha)) ?_
                · intro x hx
                  rcases List.mem_cons.mp hx with h | h
                  · exact Or.inr ⟨d, p, hdReach, hpd, h ▸ hplover⟩
                  · exact hstack x (List.mem_cons_of_mem d h)
                · intro q hq Q l2 hQ hl2 ha
                  rcases List.mem_cons.mp hq with h | h
                  · -- q = d : lover l was pushed
                    rw [h, hpd] at hQ
                    cases hQ
                    rw [hplover] at hl2
                    cases hl2
                    exact Or.inr (List.mem_cons_self l rest)
                  · rcases hclosed q h Q l2 hQ hl2 ha with h2 | h2
                    · exact Or.inl (List.mem_cons_of_mem d h2)
                    · rcases List.mem_cons.mp h2 with h2 | h2
                      · exact Or.inl (h2 ▸ List.mem_cons_self d final)
                      · exact Or.inr (List.mem_cons_of_mem l h2)
              · have heq : expandLoop ps (fuel + 1) (d :: rest) final =
                    expandLoop ps fuel rest (d :: final) := by
                  simp [expandLoop, hdf, hpd, hal, hplover, hpush]
                rw [heq]
                refine ih rest (d :: final) (by omega) hfin2
                  (fun x hx => hstack x (List.mem_cons_of_mem d hx))
                  (hseeds2 rest hseeds (fun a ha => ha)) ?_
                intro q hq Q l2 hQ hl2 ha
                rcases List.mem_cons.mp hq with h | h
                · -- q = d : lover l is dead, absent or falsy
                  rw [h, hpd] at hQ
                  cases hQ
                  rw [hplover] at hl2
                  cases hl2
                  exfalso
                  apply hpush
                  constructor
                  · intro hl0
                    rw [hl0] at ha
                    unfold aliveMem at ha
                    rw [h0] at ha
                    cases ha
                  · exact ha
                · rcases hclosed q h Q l2 hQ hl2 ha with h2 | h2
                  · exact Or.inl (List.mem_cons_of_mem d h2)
                  · rcases List.mem_cons.mp h2 with h2 | h2
                    · exact Or.inl (h2 ▸ List.mem_cons_self d final)
                    · exact Or.inr h2
          · have hda : aliveMem ps d = false := by
              unfold aliveMem
              rw [hpd]
              simpa using hal
            have heq : expandLoop ps (fuel + 1) (d :: rest) final =
                expandLoop ps fuel rest final := by
              simp [expandLoop, hdf, hpd, hal]
            rw [heq]
            refine ih rest final (by omega) hfin
              (fun x hx => hstack x (List.mem_cons_of_mem d hx)) ?_ ?_
            · intro e he ha
              rcases hseeds e he ha with h | h
              · exact Or.inl h
              · rcases List.mem_cons.mp h with h | h
                · rw [h] at ha
                  rw [hda] at ha
                  cases ha
                · exact Or.inr h
            · intro q hq Q l hQ hl ha
              rcases hclosed q hq Q l hQ hl ha with h | h
              · exact Or.inl h
              · rcases List.mem_cons.mp h with h | h
                · rw [h] at ha
                  rw [hda] at ha
                  cases ha
                · exact Or.inr h

theorem expandDeaths_iff (ps : List (Nat × PlayerState)) (D : List Nat)
    (h0 : pfind ps 0 = none) :
    ∀ x, x ∈ expandDeaths ps D ↔ ReachDeath ps D x := by
  have hlen : unvisited ps [] ≤ ps.length := by
    unfold unvisited
    calc ((ps.map Prod.fst).filter _).length ≤ (ps.map Prod.fst).length :=
          List.length_filter_le _ _
      _ = ps.length := List.length_map _ _
  have h := expandLoop_char ps D h0 (D.length + ps.length + 1) D []
    (by simpa using Nat.le_trans (Nat.add_le_add_left hlen D.length) (by omega))
    (by simp)
    (fun x hx => Or.inl hx)
    (fun d hd _ => Or.inr hd)
    (by simp)
  intro x
  exact ⟨fun hx => h.1 x hx, fun hx => h.2 x hx⟩

/-- C5: the deaths/lovers closure returns exactly the identities reachable
from the direct-kill set through chains of living bonded partners
(`ReachDeath`), skipping dead or absent identities; everything it returns
is a living participant; running it on its own output returns the same
set; and a living bonded pair with one member in the direct kills has both
members in the output.  The hypothesis says id 0 — falsy in Python — is
not a participant, which is true of every real discord id. -/
theorem C5_death_propagation (ps : List (Nat × PlayerState)) (D : List Nat)
    (h0 : pfind ps 0 = none) :
    (∀ x, x ∈ expandDeaths ps D ↔ ReachDeath ps D x) ∧
    (∀ x, x ∈ expandDeaths ps D → aliveMem ps x = true) ∧
    (∀ x, x ∈ expandDeaths ps (expandDeaths ps D) ↔ x ∈ expandDeaths ps D) ∧
    (∀ a b P, a ∈ D → pfind ps a = some P → P.alive = true →
      P.lover_id = some b → aliveMem ps b = true →
      a ∈ expandDeaths ps D ∧ b ∈ expandDeaths ps D) := by
  have hiff := expandDeaths_iff ps D h0
  refine ⟨hiff, ?_, ?_, ?_⟩
  · intro x hx
    exact reach_alive ((hiff x).mp hx)
  · intro x
    rw [expandDeaths_iff ps (expandDeaths ps D) h0 x, hiff x]
    constructor
    · intro hx
      induction hx with
      | seed d hd _ => exact (hiff d).mp hd
      | chain p l P hp hP hl ha ih => exact .chain p l P ih hP hl ha
    · intro hx
      exact .seed x ((hiff x).mpr hx) (reach_alive hx)
  · intro a b P ha hP hal hlov hb
    have hra : ReachDeath ps D a := .seed a ha (aliveMem_of hP hal)
    exact ⟨(hiff a).mpr hra, (hiff b).mpr (.chain a b P hra hP hlov hb)⟩

/-- C5 witness: targeting only player 1 kills the bonded pair 1-2 and
nobody else, and the closure is idempotent on that output. -/
theorem C5_death_propagation_witness :
    pfind probeC5 0 = none ∧
    1 ∈ expandDeaths probeC5 [1] ∧ 2 ∈ expandDeaths probeC5 [1] ∧
    ¬3 ∈ expandDeaths probeC5 [1] ∧
    (3 ∈ expandDeaths probeC5 (expandDeaths probeC5 [1]) ↔
      3 ∈ expandDeaths probeC5 [1]) := by
  have hc := C5_death_propagation probeC5 [1] rfl
  have hpair := hc.2.2.2 1 2 { user_id := 1, lover_id := some 2 }
    (by decide) rfl rfl rfl rfl
  exact ⟨rfl, hpair.1, hpair.2, by decide, hc.2.2.1 3⟩

theorem applyNight_kill_used (g : GameState) :
    (applyNight g).witch_kill_used = (nightKills g).1.witch_kill_used := by
  simp only [applyNight]
  split <;> rfl

theorem applyNight_black_used (g : GameState) :
    (applyNight g).black_infect_used = (nightKills g).1.black_infect_used := by
  simp only [applyNight]
  split <;> rfl

theorem healConsume_kill_used (g : GameState) :
    (healConsume g).witch_kill_used = g.witch_kill_used := by
  unfold healConsume; split_ifs <;> rfl

theorem infectApply_kill_used (g : GameState) (v : Option Nat) :
    ((infectApply g v).2).witch_kill_used = g.witch_kill_used := by
  unfold infectApply
  split_ifs
  · cases g.black_infect_target_id <;> rfl
  · rfl

theorem nightKills_players (g : GameState) :
    (nightKills g).1.players =
      ((infectApply (healConsume g)
        (healClear g (guardStep g g.wolf_target_id))).2).players := by
  show ((poisonStep _ _).1).players = _
  rw [poisonStep_players]

theorem infectApply_lover (g : GameState) (v : Option Nat) (p : Nat) :
    Option.map PlayerState.lover_id (pfind ((infectApply g v).2).players p) =
      Option.map PlayerState.lover_id (pfind g.players p) := by
  unfold infectApply
  split_ifs
  · cases g.black_infect_target_id with
    | none => rfl
    | some t =>
      simp only [pfind_pmod]
      split_ifs <;> cases pfind g.players p <;> simp
  · rfl

theorem aliveMem_congr {ps1 ps2 : List (Nat × PlayerState)} {x : Nat}
    (h : Option.map PlayerState.alive (pfind ps1 x) =
      Option.map PlayerState.alive (pfind ps2 x)) :
    aliveMem ps1 x = aliveMem ps2 x := by
  unfold aliveMem
  cases h1 : pfind ps1 x <;> cases h2 : pfind ps2 x <;>
    rw [h1, h2] at h <;> simp_all

theorem pfind_none_congr {ps1 ps2 : List (Nat × PlayerState)} {x : Nat}
    (h : Option.map PlayerState.alive (pfind ps1 x) =
      Option.map PlayerState.alive (pfind ps2 x))
    (h2 : pfind ps2 x = none) : pfind ps1 x = none := by
  cases h1 : pfind ps1 x
  · rfl
  · rw [h1, h2] at h
    simp at h

theorem reach_mono {ps : List (Nat × PlayerState)} {D D' : List Nat} {x : Nat}
    (hsub : ∀ y ∈ D, y ∈ D') (h : ReachDeath ps D x) : ReachDeath ps D' x := by
  induction h with
  | seed d hd ha => exact .seed d (hsub d hd) ha
  | chain p l P hp hP hl ha ih => exact .chain p l P ih hP hl ha

theorem reach_append_dead {ps : List (Nat × PlayerState)} {base : List Nat}
    {k : Nat} (hk : aliveMem ps k = false) (x : Nat) :
    ReachDeath ps (base ++ [k]) x ↔ ReachDeath ps base x := by
  constructor
  · intro h
    induction h with
    | seed d hd ha =>
      rcases List.mem_append.mp hd with h | h
      · exact .seed d h ha
      · have : d = k := by simpa using h
        rw [this, hk] at ha
        cases ha
    | chain p l P hp hP hl ha ih => exact .chain p l P ih hP hl ha
  · exact reach_mono (fun y hy => List.mem_append_left _ hy)

/-- C10: at `lg_finish_night`, a poison target that is absent from the
session or already not-alive is not validated: the call succeeds, the
poison is still marked consumed, the target joins the direct-kill list,
and death propagation silently drops it — the final death set is exactly
what it would have been without the poison entry, and the target is not in
it.  (Id 0 is not a participant: discord ids are positive.) -/
theorem C10_poison_target_unvalidated (g : GameState) (hph : g.phase = "night")
    (k : Nat) (hkt : g.witch_kill_target_id = some k) (hk0 : k ≠ 0)
    (hku : g.witch_kill_used = false)
    (hdead : aliveMem g.players k = false)
    (h0 : pfind g.players 0 = none) :
    (lg_finish_night g g.created_by).1 = none ∧
    ((lg_finish_night g g.created_by).2).witch_kill_used = true ∧
    (∃ base, (nightKills g).2 = base ++ [k] ∧
      ∀ x, x ∈ expandDeaths (nightKills g).1.players ((nightKills g).2) ↔
        x ∈ expandDeaths (nightKills g).1.players base) ∧
    k ∉ expandDeaths (nightKills g).1.players ((nightKills g).2) := by
  have hok : lg_finish_night g g.created_by = (none, applyNight g) := by
    simp [lg_finish_night, hph]
  have hXkt : ((infectApply (healConsume g)
      (healClear g (guardStep g g.wolf_target_id))).2).witch_kill_target_id =
      some k := by
    rw [infectApply_kill_target, healConsume_kill_target, hkt]
  have hXku : ((infectApply (healConsume g)
      (healClear g (guardStep g g.wolf_target_id))).2).witch_kill_used =
      false := by
    rw [infectApply_kill_used, healConsume_kill_used, hku]
  have hdeq : (nightKills g).2 =
      victimList (infectApply (healConsume g)
        (healClear g (guardStep g g.wolf_target_id))).1 ++ [k] := by
    show (poisonStep _ _).2 = _
    unfold poisonStep
    rw [hXkt, hXku]
    simp [truthy, hk0]
  have hkused : (nightKills g).1.witch_kill_used = true := by
    show ((poisonStep _ _).1).witch_kill_used = true
    unfold poisonStep
    rw [hXkt, hXku]
    simp [truthy, hk0]
  have hmalive : ∀ x, Option.map PlayerState.alive
      (pfind (nightKills g).1.players x) =
      Option.map PlayerState.alive (pfind g.players x) := by
    intro x
    rw [nightKills_players, infectApply_alive, healConsume_players]
  have h0' : pfind (nightKills g).1.players 0 = none :=
    pfind_none_congr (hmalive 0) h0
  have hkd : aliveMem (nightKills g).1.players k = false := by
    rw [aliveMem_congr (hmalive k)]
    exact hdead
  refine ⟨by rw [hok], ?_, ⟨_, hdeq, ?_⟩, ?_⟩
  · rw [hok]
    show (applyNight g).witch_kill_used = true
    rw [applyNight_kill_used, hkused]
  · intro x
    rw [show (expandDeaths (nightKills g).1.players ((nightKills g).2)) =
      expandDeaths (nightKills g).1.players (victimList (infectApply
        (healConsume g) (healClear g (guardStep g g.wolf_target_id))).1 ++ [k])
      from by rw [hdeq]]
    rw [expandDeaths_iff _ _ h0' x, expandDeaths_iff _ _ h0' x]
    exact reach_append_dead hkd x
  · intro hmem
    have := reach_alive ((expandDeaths_iff _ _ h0' k).mp hmem)
    rw [hkd] at this
    cases this

/-- C10 witness: the unvalidated-poison theorem applied to `probeC10`. -/
theorem C10_poison_target_unvalidated_witness :
    probeC10.phase = "night" ∧ aliveMem probeC10.players 9 = false ∧
    (lg_finish_night probeC10 1).1 = none ∧
    ((lg_finish_night probeC10 1).2).witch_kill_used = true ∧
    9 ∉ expandDeaths (nightKills probeC10).1.players ((nightKills probeC10).2) := by
  have hc := C10_poison_target_unvalidated probeC10 rfl 9 rfl (by decide)
    rfl rfl rfl
  exact ⟨rfl, rfl, hc.1, hc.2.1, hc.2.2.2⟩

theorem poisonStep_black_used (g : GameState) (d : List Nat) :
    ((poisonStep g d).1).black_infect_used = g.black_infect_used := by
  unfold poisonStep; split_ifs <;> rfl

theorem pfind_markDead_notmem (final : List Nat) :
    ∀ (ps : List (Nat × PlayerState)) (t : Nat), t ∉ final →
      pfind (markDead ps final) t = pfind ps t := by
  induction final with
  | nil => intro ps t _; rfl
  | cons d rest ih =>
    intro ps t ht
    have hstep : markDead ps (d :: rest) =
        markDead (pmod ps d (fun p => { p with alive := false })) rest := rfl
    rw [hstep, ih _ t (fun h => ht (List.mem_cons_of_mem d h)), pfind_pmod]
    rw [if_neg (fun h => ht (by rw [h]; exact List.mem_cons_self d rest))]

/-- C3 as amended: in the night phase, with the infection unspent and aimed
at the wolves' own living non-wolf victim, and provided the poison does
not also target that participant and no participant's bond points at them,
`lg_finish_night` succeeds, the target survives as a plain wolf with the
infected flag set, the infection is consumed, and the target never enters
the direct-kill list.  (Id 0 is not a participant: discord ids are
positive.) -/
theorem C3_infection_overrides_kill (g : GameState) (hph : g.phase = "night")
    (hbu : g.black_infect_used = false) (t : Nat)
    (hbt : g.black_infect_target_id = some t) (ht0 : t ≠ 0)
    (P : PlayerState) (hpf : pfind g.players t = some P)
    (halive : P.alive = true) (hnw : is_wolf P.role = false)
    (hwt : g.wolf_target_id = some t)
    (hnk : g.witch_kill_target_id ≠ some t)
    (hnb : ∀ p Q, pfind g.players p = some Q → Q.lover_id ≠ some t)
    (h0 : pfind g.players 0 = none) :
    (lg_finish_night g g.created_by).1 = none ∧
    (∃ P2, pfind ((lg_finish_night g g.created_by).2).players t = some P2 ∧
      P2.alive = true ∧ P2.role = some "loup_garou" ∧ P2.infected = true) ∧
    ((lg_finish_night g g.created_by).2).black_infect_used = true ∧
    t ∉ (nightKills g).2 := by
  have hok : lg_finish_night g g.created_by = (none, applyNight g) := by
    simp [lg_finish_night, hph]
  have hio : infectOk g = true := by
    unfold infectOk
    rw [hbt]
    simp [truthy, ht0, hbu, hpf, halive, hnw]
  have hio2 : infectOk (healConsume g) = true := by
    rw [infectOk_healConsume]; exact hio
  have hbt2 : (healConsume g).black_infect_target_id = some t := by
    rw [healConsume_black_target, hbt]
  have hv1 : guardStep g g.wolf_target_id = none ∨
      guardStep g g.wolf_target_id = some t := by
    unfold guardStep
    rw [hwt]
    split_ifs <;> simp
  have hv2 : healClear g (guardStep g g.wolf_target_id) = none ∨
      healClear g (guardStep g g.wolf_target_id) = some t := by
    unfold healClear
    split_ifs
    · exact Or.inl rfl
    · exact hv1
  have hvi1 : (infectApply (healConsume g)
      (healClear g (guardStep g g.wolf_target_id))).1 = none := by
    unfold infectApply
    rw [if_pos hio2, hbt2]
    rcases hv2 with h | h <;> rw [h] <;> simp
  have hvi2p : ((infectApply (healConsume g)
      (healClear g (guardStep g g.wolf_target_id))).2).players =
      pmod g.players t
        (fun q => { q with role := some "loup_garou", infected := true }) := by
    unfold infectApply
    rw [if_pos hio2, hbt2, healConsume_players]
  have hvi2b : ((infectApply (healConsume g)
      (healClear g (guardStep g g.wolf_target_id))).2).black_infect_used =
      true := by
    unfold infectApply
    rw [if_pos hio2, hbt2]
  have hkt' : ((infectApply (healConsume g)
      (healClear g (guardStep g g.wolf_target_id))).2).witch_kill_target_id =
      g.witch_kill_target_id := by
    rw [infectApply_kill_target, healConsume_kill_target]
  have hdeaths : t ∉ (nightKills g).2 := by
    show t ∉ (poisonStep _ (victimList (infectApply (healConsume g)
      (healClear g (guardStep g g.wolf_target_id))).1)).2
    rw [hvi1]
    unfold poisonStep
    rw [hkt']
    split_ifs with hf
    · cases hkk : g.witch_kill_target_id with
      | none =>
        rw [hkk] at hf
        simp [truthy] at hf
      | some k0 =>
        simp [victimList, truthy]
        intro h
        exact hnk (by rw [hkk, h])
    · simp [victimList, truthy]
  have hmalive : ∀ x, Option.map PlayerState.alive
      (pfind (nightKills g).1.players x) =
      Option.map PlayerState.alive (pfind g.players x) := by
    intro x
    rw [nightKills_players, infectApply_alive, healConsume_players]
  have h0' : pfind (nightKills g).1.players 0 = none :=
    pfind_none_congr (hmalive 0) h0
  have hlov : ∀ p, Option.map PlayerState.lover_id
      (pfind (nightKills g).1.players p) =
      Option.map PlayerState.lover_id (pfind g.players p) := by
    intro p
    rw [nightKills_players, infectApply_lover, healConsume_players]
  have hfinal : t ∉ expandDeaths (nightKills g).1.players ((nightKills g).2) := by
    intro hmem
    have hre := (expandDeaths_iff _ _ h0' t).mp hmem
    cases hre with
    | seed d hd _ => exact hdeaths hd
    | chain p l Q hp hQ hl _ =>
      have := hlov p
      rw [hQ] at this
      cases hgp : pfind g.players p with
      | none =>
        rw [hgp] at this
        simp at this
      | some Q0 =>
        rw [hgp] at this
        simp at this
        have hQl : Q0.lover_id = some t := by
          first
            | (rw [this]; exact hl)
            | (rw [← this]; exact hl)
        exact hnb p Q0 hgp hQl
  have hpt : pfind (nightKills g).1.players t =
      some { P with role := some "loup_garou", infected := true } := by
    rw [nightKills_players, hvi2p, pfind_pmod, if_pos rfl, hpf]
    rfl
  refine ⟨by rw [hok], ?_, ?_, hdeaths⟩
  · rw [hok]
    refine ⟨{ P with role := some "loup_garou", infected := true }, ?_, halive, rfl, rfl⟩
    show pfind (applyNight g).players t = _
    rw [applyNight_players, pfind_markDead_notmem _ _ t hfinal, hpt]
  · rw [hok]
    show (applyNight g).black_infect_used = true
    rw [applyNight_black_used]
    show ((poisonStep _ _).1).black_infect_used = true
    rw [poisonStep_black_used, hvi2b]

/-- C3 counterexample: on `probeC3x` every hypothesis of the claim holds
(night phase, infection unspent, its target equals the wolves' tentative
victim, the target is living and not a wolf), yet after `lg_finish_night`
the target is dead — converted to a wolf and infected, but killed by the
poison — so the claim's "the target is alive" is false as stated. -/
theorem C3_counterexample :
    probeC3x.phase = "night" ∧ probeC3x.black_infect_used = false ∧
    probeC3x.black_infect_target_id = some 2 ∧
    probeC3x.wolf_target_id = some 2 ∧
    pfind probeC3x.players 2 = some { user_id := 2, role := some "villageois" } ∧
    is_wolf (some "villageois") = false ∧
    (∃ P2, pfind ((lg_finish_night probeC3x 1).2).players 2 = some P2 ∧
      P2.alive = false ∧ P2.role = some "loup_garou" ∧ P2.infected = true) := by
  exact ⟨rfl, rfl, rfl, rfl, rfl, rfl, ⟨_, rfl, rfl, rfl, rfl⟩⟩

/-- C3 witness: the amended infection-overrides-kill theorem applied to
`probeC3w`. -/
theorem C3_infection_overrides_kill_witness :
    probeC3w.phase = "night" ∧
    (lg_finish_night probeC3w 1).1 = none ∧
    (∃ P2, pfind ((lg_finish_night probeC3w 1).2).players 2 = some P2 ∧
      P2.alive = true ∧ P2.role = some "loup_garou" ∧ P2.infected = true) ∧
    ((lg_finish_night probeC3w 1).2).black_infect_used = true ∧
    2 ∉ (nightKills probeC3w).2 := by
  have hc := C3_infection_overrides_kill probeC3w rfl rfl 2 rfl (by decide)
    { user_id := 2, role := some "villageois" } rfl rfl rfl rfl (by decide)
    (by
      intro p Q hpQ
      simp only [probeC3w, pfind] at hpQ
      split_ifs at hpQ <;> (try cases hpQ) <;> simp)
    rfl
  exact ⟨rfl, hc.1, hc.2.1, hc.2.2.1, hc.2.2.2⟩

theorem lookup_cons_eq (k : Nat) (v : Nat) (cs : List (Nat × Nat)) (t : Nat) :
    ((k, v) :: cs).lookup t = if k = t then some v else cs.lookup t := by
  rw [List.lookup_cons]
  by_cases h : k = t
  · have ht : (t == k) = true := by simp [h]
    rw [ht, if_pos h]
  · have ht : (t == k) = false := by
      simp only [beq_eq_false_iff_ne, ne_eq]
      exact fun hh => h hh.symm
    rw [ht, if_neg h]

theorem lookup_append_left (cs ds : List (Nat × Nat)) (t : Nat) (c : Nat)
    (h : cs.lookup t = some c) : (cs ++ ds).lookup t = some c := by
  induction cs with
  | nil => simp [List.lookup] at h
  | cons kv rest ih =>
    obtain ⟨k, v⟩ := kv
    rw [lookup_cons_eq] at h
    rw [List.cons_append, lookup_cons_eq]
    by_cases hk : k = t
    · rw [if_pos hk] at h ⊢
      exact h
    · rw [if_neg hk] at h ⊢
      exact ih h

theorem lookup_append_right (cs ds : List (Nat × Nat)) (t : Nat)
    (h : cs.lookup t = none) : (cs ++ ds).lookup t = ds.lookup t := by
  induction cs with
  | nil => rfl
  | cons kv rest ih =>
    obtain ⟨k, v⟩ := kv
    rw [lookup_cons_eq] at h
    rw [List.cons_append, lookup_cons_eq]
    by_cases hk : k = t
    · rw [if_pos hk] at h
      cases h
    · rw [if_neg hk] at h
      rw [if_neg hk]
      exact ih h

theorem lookup_map_update (cs : List (Nat × Nat)) (tg c x : Nat) :
    (cs.map (fun kv => if kv.1 = tg then (tg, c) else kv)).lookup x =
      if x = tg then (if (cs.lookup tg).isSome then some c else none)
      else cs.lookup x := by
  induction cs with
  | nil => simp [List.lookup]
  | cons kv rest ih =>
    obtain ⟨k, v⟩ := kv
    have hstep : ((k, v) :: rest).map (fun kv => if kv.1 = tg then (tg, c) else kv) =
        (if k = tg then (tg, c) else (k, v)) ::
          rest.map (fun kv => if kv.1 = tg then (tg, c) else kv) := rfl
    rw [hstep]
    by_cases hk : k = tg <;> by_cases hx : x = tg <;> by_cases hkx : k = x <;>
      simp_all [lookup_cons_eq, ih] <;> rw [lookup_cons_eq, if_neg hk]

theorem getCount_addCount (cs : List (Nat × Nat)) (tg w t : Nat) :
    getCount (addCount cs tg w) t =
      getCount cs t + (if t = tg then w else 0) := by
  unfold addCount getCount
  cases hl : cs.lookup tg with
  | none =>
    by_cases hx : t = tg
    · subst hx
      rw [lookup_append_right cs _ t hl, hl, lookup_cons_eq, if_pos rfl]
      simp
    · rw [if_neg hx]
      cases hxl : cs.lookup t with
      | none =>
        rw [lookup_append_right cs _ t hxl, lookup_cons_eq,
          if_neg (fun h => hx h.symm)]
        simp [List.lookup]
      | some cx =>
        rw [lookup_append_left cs _ t cx hxl]
        simp
  | some c0 =>
    rw [lookup_map_update]
    by_cases hx : t = tg
    · subst hx
      rw [if_pos rfl, hl]
      simp
    · rw [if_neg hx, if_neg hx]
      simp

theorem getCount_foldl (w : Nat → Nat) (votes : List (Nat × Nat)) :
    ∀ (cs : List (Nat × Nat)) (t : Nat),
      getCount (votes.foldl (fun cs vt => addCount cs vt.2 (w vt.1)) cs) t =
        getCount cs t +
          ((votes.filter (fun vt => vt.2 = t)).map (fun vt => w vt.1)).sum := by
  induction votes with
  | nil => intro cs t; simp
  | cons vt rest ih =>
    intro cs t
    obtain ⟨v, tg⟩ := vt
    rw [List.foldl_cons, ih]
    rw [getCount_addCount]
    by_cases hx : t = tg
    · subst hx
      simp [List.filter]
      omega
    · have hnt : ¬tg = t := fun h => hx h.symm
      simp [List.filter, hnt, hx]

theorem getCount_tallyCounts (g : GameState) (t : Nat) :
    getCount (tallyCounts g) t = weightedTotal g t := by
  unfold tallyCounts weightedTotal
  rw [getCount_foldl]
  simp [getCount, List.lookup]

theorem lookup_none_not_mem {cs : List (Nat × Nat)} {t : Nat}
    (h : cs.lookup t = none) : t ∉ cs.map Prod.fst := by
  induction cs with
  | nil => simp
  | cons kv rest ih =>
    obtain ⟨k, v⟩ := kv
    rw [lookup_cons_eq] at h
    by_cases hk : k = t
    · rw [if_pos hk] at h
      cases h
    · rw [if_neg hk] at h
      simp only [List.map_cons, List.mem_cons]
      rintro (hh | hh)
      · exact hk hh.symm
      · exact ih h hh

theorem lookup_entry {cs : List (Nat × Nat)} {t c : Nat}
    (h : cs.lookup t = some c) : (t, c) ∈ cs := by
  induction cs with
  | nil => cases h
  | cons kv rest ih =>
    obtain ⟨k, v⟩ := kv
    rw [lookup_cons_eq] at h
    by_cases hk : k = t
    · rw [if_pos hk] at h
      subst hk
      cases h
      exact List.mem_cons_self _ _
    · rw [if_neg hk] at h
      exact List.mem_cons_of_mem _ (ih h)

theorem entry_lookup {cs : List (Nat × Nat)} {t c : Nat}
    (hnd : (cs.map Prod.fst).Nodup) (h : (t, c) ∈ cs) :
    cs.lookup t = some c := by
  induction cs with
  | nil => cases h
  | cons kv rest ih =>
    obtain ⟨k, v⟩ := kv
    simp only [List.map_cons, List.nodup_cons] at hnd
    rw [lookup_cons_eq]
    rcases List.mem_cons.mp h with hh | hh
    · cases hh
      rw [if_pos rfl]
    · by_cases hk : k = t
      · exfalso
        apply hnd.1
        rw [hk]
        exact List.mem_map.mpr ⟨(t, c), hh, rfl⟩
      · rw [if_neg hk]
        exact ih hnd.2 hh

theorem addCount_keys_nodup (cs : List (Nat × Nat)) (tg w : Nat)
    (h : (cs.map Prod.fst).Nodup) : ((addCount cs tg w).map Prod.fst).Nodup := by
  unfold addCount
  cases hl : cs.lookup tg with
  | some c =>
    have hkeys : (cs.map (fun kv => if kv.1 = tg then (tg, c + w) else kv)).map Prod.fst
        = cs.map Prod.fst := by
      rw [List.map_map]
      apply List.map_congr_left
      intro kv _
      by_cases hk : kv.1 = tg
      · simp [hk]
      · simp [hk]
    rw [hkeys]
    exact h
  | none =>
    have hmem := lookup_none_not_mem hl
    simp only [List.map_append, List.map_cons, List.map_nil]
    rw [List.nodup_append]
    exact ⟨h, List.nodup_singleton tg, by
      intro a ha hb
      simp only [List.mem_singleton] at hb
      exact hmem (hb ▸ ha)⟩

theorem tallyCounts_keys_nodup (g : GameState) :
    ((tallyCounts g).map Prod.fst).Nodup := by
  unfold tallyCounts
  have : ∀ (votes : List (Nat × Nat)) (cs : List (Nat × Nat)),
      (cs.map Prod.fst).Nodup →
      ((votes.foldl (fun cs vt => addCount cs vt.2 (voteWeight g vt.1)) cs).map
        Prod.fst).Nodup := by
    intro votes
    induction votes with
    | nil => intro cs h; exact h
    | cons vt rest ih =>
      intro cs h
      exact ih _ (addCount_keys_nodup cs vt.2 (voteWeight g vt.1) h)
  exact this _ [] (by simp)

theorem foldl_max_le (l : List Nat) : ∀ (a x : Nat), x ∈ l → x ≤ l.foldl max a := by
  induction l with
  | nil => intro a x hx; cases hx
  | cons b t ih =>
    intro a x hx
    rw [List.foldl_cons]
    rcases List.mem_cons.mp hx with h | h
    · subst h
      calc x ≤ max a x := le_max_right a x
        _ ≤ t.foldl max (max a x) := by
          clear ih hx
          induction t generalizing a x with
          | nil => exact le_refl _
          | cons c u ihh =>
            rw [List.foldl_cons]
            calc max a x ≤ max (max a x) c := le_max_left _ _
              _ ≤ u.foldl max (max (max a x) c) := ihh _ _
    · exact ih _ x h

theorem foldl_max_mem (l : List Nat) : ∀ (a : Nat),
    l.foldl max a = a ∨ l.foldl max a ∈ l := by
  induction l with
  | nil => intro a; exact Or.inl rfl
  | cons b t ih =>
    intro a
    rw [List.foldl_cons]
    rcases ih (max a b) with h | h
    · rw [h]
      rcases Nat.le_total a b with hab | hab
      · rw [Nat.max_eq_right hab]
        exact Or.inr (List.mem_cons_self _ _)
      · rw [Nat.max_eq_left hab]
        exact Or.inl rfl
    · exact Or.inr (List.mem_cons_of_mem _ h)

theorem nodup_all_eq_singleton {l : List Nat} {x : Nat} (hnd : l.Nodup)
    (hall : ∀ y ∈ l, y = x) (hx : x ∈ l) : l = [x] := by
  cases l with
  | nil => cases hx
  | cons a t =>
    have ha : a = x := hall a (List.mem_cons_self _ _)
    subst ha
    cases t with
    | nil => rfl
    | cons b u =>
      have hb : b = a := hall b (List.mem_cons_of_mem _ (List.mem_cons_self _ _))
      rw [List.nodup_cons] at hnd
      exact absurd (hb ▸ List.mem_cons_self b u) hnd.1

theorem tally_votes_def (g : GameState) : tally_votes g =
    (if tallyCounts g = [] then (none, tallyCounts g)
     else match (((tallyCounts g).filter (fun kv =>
         kv.2 = ((tallyCounts g).map (fun kv => kv.2)).foldl max 0)).map
         (fun kv => kv.1)) with
       | [t] => (some t, tallyCounts g)
       | _ => (none, tallyCounts g)) := rfl

theorem tally_votes_snd (g : GameState) : (tally_votes g).2 = tallyCounts g := by
  rw [tally_votes_def]
  split_ifs with h
  · rfl
  · generalize (((tallyCounts g).filter (fun kv =>
      kv.2 = ((tallyCounts g).map (fun kv => kv.2)).foldl max 0)).map
      (fun kv => kv.1)) = top
    rcases top with _ | ⟨a, _ | ⟨b, u⟩⟩ <;> rfl

theorem tally_votes_fst (g : GameState) : (tally_votes g).1 =
    if tallyCounts g = [] then none
    else match tallyTop g with
      | [t] => some t
      | _ => none := by
  rw [tally_votes_def]
  unfold tallyTop tallyBest
  split_ifs with h
  · rfl
  · generalize (((tallyCounts g).filter (fun kv =>
      kv.2 = ((tallyCounts g).map (fun kv => kv.2)).foldl max 0)).map
      (fun kv => kv.1)) = top
    rcases top with _ | ⟨a, _ | ⟨b, u⟩⟩ <;> rfl

theorem mem_tallyTop_iff (g : GameState) (x : Nat) :
    x ∈ tallyTop g ↔ ∃ e ∈ tallyCounts g, e.2 = tallyBest g ∧ e.1 = x := by
  unfold tallyTop
  simp only [List.mem_map, List.mem_filter]
  constructor
  · rintro ⟨e, ⟨he, hb⟩, hx⟩
    exact ⟨e, he, by simpa using hb, hx⟩
  · rintro ⟨e, he, hb, hx⟩
    exact ⟨e, ⟨he, by simpa using hb⟩, hx⟩

theorem getCount_le_best (g : GameState) (t : Nat)
    (h : keyIn (tallyCounts g) t = true) :
    getCount (tallyCounts g) t ≤ tallyBest g := by
  unfold keyIn at h
  cases hl : (tallyCounts g).lookup t with
  | none => rw [hl] at h; cases h
  | some c =>
    have hmem : (t, c) ∈ tallyCounts g := lookup_entry hl
    have : c ∈ (tallyCounts g).map (fun kv => kv.2) :=
      List.mem_map.mpr ⟨(t, c), hmem, rfl⟩
    unfold getCount
    rw [hl]
    exact foldl_max_le _ 0 c this

theorem best_le_of_bound (g : GameState) (b : Nat)
    (hb : ∀ t, keyIn (tallyCounts g) t = true → getCount (tallyCounts g) t ≤ b) :
    tallyBest g ≤ b := by
  unfold tallyBest
  rcases foldl_max_mem ((tallyCounts g).map (fun kv => kv.2)) 0 with h | h
  · rw [h]; exact Nat.zero_le b
  · rcases List.mem_map.mp h with ⟨e, he, hv⟩
    have hl : (tallyCounts g).lookup e.1 = some e.2 :=
      entry_lookup (tallyCounts_keys_nodup g) (by cases e; exact he)
    have hk : keyIn (tallyCounts g) e.1 = true := by
      unfold keyIn; rw [hl]; rfl
    have := hb e.1 hk
    unfold getCount at this
    rw [hl] at this
    simp only [Option.getD_some] at this
    calc ((tallyCounts g).map (fun kv => kv.2)).foldl max 0 = e.2 := hv.symm
      _ ≤ b := this

theorem getCount_keyIn {g : GameState} {x : Nat} {c : Nat}
    (hl : (tallyCounts g).lookup x = some c) :
    keyIn (tallyCounts g) x = true ∧ getCount (tallyCounts g) x = c := by
  constructor
  · unfold keyIn; rw [hl]; rfl
  · unfold getCount; rw [hl]; rfl

theorem lookup_setVote_self (vs : List (Nat × Nat)) (v t : Nat) :
    (setVote vs v t).lookup v = some t := by
  unfold setVote
  cases hl : vs.lookup v with
  | none =>
    rw [lookup_append_right vs _ v hl, lookup_cons_eq, if_pos rfl]
  | some c =>
    rw [lookup_map_update, if_pos rfl, hl]
    rfl

/-- C6: each ballot in a round counts with weight 1 except the mayor's,
which counts 2 exactly in a `daykill` round; the per-target totals are the
weighted sums of the ballots; with no ballots there is no winner; a
returned winner holds a strictly maximal total; a target strictly above
every other is returned as the winner; and a shared maximum — a 2-2 split
in particular — yields no winner.  The final clause records that a voter's
latest ballot is the one in the round's map.  (The mayor id, when set, is
a real discord id, never 0.) -/
theorem C6_vote_tally (g : GameState) (hm : g.mayor_id ≠ some 0) :
    (∀ v, voteWeight g v =
      if g.vote.kind = "daykill" ∧ g.mayor_id = some v then 2 else 1) ∧
    (∀ t, getCount (tally_votes g).2 t = weightedTotal g t) ∧
    (g.vote.votes = [] → (tally_votes g).1 = none) ∧
    (∀ x, (tally_votes g).1 = some x →
      keyIn (tally_votes g).2 x = true ∧
      ∀ t, keyIn (tally_votes g).2 t = true → t ≠ x →
        getCount (tally_votes g).2 t < getCount (tally_votes g).2 x) ∧
    (∀ x, keyIn (tally_votes g).2 x = true →
      (∀ t, keyIn (tally_votes g).2 t = true → t ≠ x →
        getCount (tally_votes g).2 t < getCount (tally_votes g).2 x) →
      (tally_votes g).1 = some x) ∧
    (∀ t1 t2, t1 ≠ t2 → keyIn (tally_votes g).2 t1 = true →
      keyIn (tally_votes g).2 t2 = true →
      getCount (tally_votes g).2 t1 = getCount (tally_votes g).2 t2 →
      (∀ t, keyIn (tally_votes g).2 t = true →
        getCount (tally_votes g).2 t ≤ getCount (tally_votes g).2 t1) →
      (tally_votes g).1 = none) ∧
    (∀ vs v t, (setVote vs v t).lookup v = some t) := by
  have hnd := tallyCounts_keys_nodup g
  refine ⟨?_, ?_, ?_, ?_, ?_, ?_, fun vs v t => lookup_setVote_self vs v t⟩
  · intro v
    unfold voteWeight
    cases hmo : g.mayor_id with
    | none => simp [truthy]
    | some m =>
      have hm0 : m ≠ 0 := fun h => hm (by rw [hmo, h])
      by_cases hmv : m = v <;> by_cases hk : g.vote.kind = "daykill" <;>
        simp [truthy, hm0, hmv, hk] <;> simp_all
  · intro t
    rw [tally_votes_snd]
    exact getCount_tallyCounts g t
  · intro hv
    rw [tally_votes_fst]
    rw [if_pos (by unfold tallyCounts; rw [hv]; rfl)]
  · intro x hx
    rw [tally_votes_fst] at hx
    rw [tally_votes_snd]
    by_cases hcs : tallyCounts g = []
    · rw [if_pos hcs] at hx
      cases hx
    · rw [if_neg hcs] at hx
      rcases htop : tallyTop g with _ | ⟨a, _ | ⟨b, u⟩⟩ <;> rw [htop] at hx
      · cases hx
      · have hax : a = x := by
          cases hx
          rfl
        subst hax
        have hamem : a ∈ tallyTop g := htop ▸ List.mem_cons_self a []
        rcases (mem_tallyTop_iff g a).mp hamem with ⟨⟨e1, e2⟩, he, hb, hx1⟩
        simp only at hb hx1
        subst hx1
        have hl : (tallyCounts g).lookup e1 = some (tallyBest g) := by
          rw [entry_lookup hnd he, hb]
        obtain ⟨hk1, hc1⟩ := getCount_keyIn hl
        refine ⟨hk1, ?_⟩
        intro t hkt htx
        cases hlt : (tallyCounts g).lookup t with
        | none => unfold keyIn at hkt; rw [hlt] at hkt; cases hkt
        | some c =>
          obtain ⟨-, hct⟩ := getCount_keyIn hlt
          rw [hct, hc1]
          have hle : c ≤ tallyBest g := by
            have := getCount_le_best g t hkt
            rw [hct] at this
            exact this
          rcases Nat.lt_or_ge c (tallyBest g) with hlt2 | hge
          · exact hlt2
          · exfalso
            have hceq : c = tallyBest g := Nat.le_antisymm hle hge
            have : t ∈ tallyTop g := (mem_tallyTop_iff g t).mpr
              ⟨(t, c), lookup_entry hlt, hceq, rfl⟩
            rw [htop] at this
            simp only [List.mem_singleton] at this
            exact htx this
      · cases hx
  · intro x hkx hstrict
    rw [tally_votes_snd] at hkx hstrict
    rw [tally_votes_fst]
    cases hlx : (tallyCounts g).lookup x with
    | none => unfold keyIn at hkx; rw [hlx] at hkx; cases hkx
    | some cx =>
      have hcs : tallyCounts g ≠ [] := by
        intro h
        rw [h] at hlx
        cases hlx
      rw [if_neg hcs]
      have hcx : getCount (tallyCounts g) x = cx := (getCount_keyIn hlx).2
      have hbest : tallyBest g = cx := by
        apply Nat.le_antisymm
        · apply best_le_of_bound
          intro t hkt
          by_cases htx : t = x
          · rw [htx, hcx]
          · have := hstrict t hkt htx
            rw [hcx] at this
            omega
        · rw [← hcx]
          exact getCount_le_best g x hkx
      have hxtop : x ∈ tallyTop g := (mem_tallyTop_iff g x).mpr
        ⟨(x, cx), lookup_entry hlx, by rw [hbest], rfl⟩
      have halltop : ∀ y ∈ tallyTop g, y = x := by
        intro y hy
        rcases (mem_tallyTop_iff g y).mp hy with ⟨⟨e1, e2⟩, he, hb, hy1⟩
        simp only at hb hy1
        subst hy1
        have hly : (tallyCounts g).lookup e1 = some (tallyBest g) := by
          rw [entry_lookup hnd he, hb]
        by_contra hyx
        have hky := (getCount_keyIn hly).1
        have := hstrict e1 hky hyx
        rw [(getCount_keyIn hly).2, hcx, hbest] at this
        omega
      have hndtop : (tallyTop g).Nodup := by
        unfold tallyTop
        have hsub : (((tallyCounts g).filter
            (fun kv => kv.2 = tallyBest g)).map (fun kv => kv.1)).Sublist
            ((tallyCounts g).map (fun kv => kv.1)) :=
          List.Sublist.map _ (List.filter_sublist _)
        exact List.Nodup.sublist hsub hnd
      rw [nodup_all_eq_singleton hndtop halltop hxtop]
  · intro t1 t2 hne hk1 hk2 heq hmax
    rw [tally_votes_snd] at hk1 hk2 heq hmax
    rw [tally_votes_fst]
    cases hl1 : (tallyCounts g).lookup t1 with
    | none => unfold keyIn at hk1; rw [hl1] at hk1; cases hk1
    | some c1 =>
      cases hl2 : (tallyCounts g).lookup t2 with
      | none => unfold keyIn at hk2; rw [hl2] at hk2; cases hk2
      | some c2 =>
        have hcs : tallyCounts g ≠ [] := by
          intro h
          rw [h] at hl1
          cases hl1
        rw [if_neg hcs]
        have hc1 : getCount (tallyCounts g) t1 = c1 := (getCount_keyIn hl1).2
        have hc2 : getCount (tallyCounts g) t2 = c2 := (getCount_keyIn hl2).2
        have hbest : tallyBest g = c1 := by
          apply Nat.le_antisymm
          · apply best_le_of_bound
            intro t hkt
            have := hmax t hkt
            rw [hc1] at this
            exact this
          · rw [← hc1]
            exact getCount_le_best g t1 hk1
        have h1top : t1 ∈ tallyTop g := (mem_tallyTop_iff g t1).mpr
          ⟨(t1, c1), lookup_entry hl1, by rw [hbest], rfl⟩
        have h2top : t2 ∈ tallyTop g := (mem_tallyTop_iff g t2).mpr
          ⟨(t2, c2), lookup_entry hl2, by
            rw [hbest]
            rw [hc1, hc2] at heq
            exact heq.symm, rfl⟩
        rcases htop : tallyTop g with _ | ⟨a, _ | ⟨b, u⟩⟩
        · rw [htop] at h1top
          try cases h1top
        · rw [htop] at h1top h2top
          exfalso
          simp only [List.mem_singleton] at h1top h2top
          exact hne (h1top.trans h2top.symm)
        · rfl

/-- C6 witness: a 2-2 split yields no winner; in a `daykill` round the
mayor's double-weight ballot decides a 2-voter-per-side round. -/
theorem C6_vote_tally_witness :
    probeC6a.mayor_id ≠ some 0 ∧ probeC6b.mayor_id ≠ some 0 ∧
    (tally_votes probeC6a).1 = none ∧ (tally_votes probeC6b).1 = some 5 := by
  have ha := C6_vote_tally probeC6a (by decide)
  have hb := C6_vote_tally probeC6b (by decide)
  refine ⟨by decide, by decide, ?_, ?_⟩
  · refine ha.2.2.2.2.2.1 5 6 (by decide) (by decide) (by decide) (by decide) ?_
    intro t ht
    by_cases h5 : t = 5
    · subst h5
      decide
    by_cases h6 : t = 6
    · subst h6
      decide
    · exfalso
      have ht2 : (List.lookup t [(5, 2), (6, 2)]).isSome = true := ht
      rw [lookup_cons_eq, if_neg (fun h => h5 h.symm),
        lookup_cons_eq, if_neg (fun h => h6 h.symm)] at ht2
      cases ht2
  · refine hb.2.2.2.2.1 5 (by decide) ?_
    intro t ht hne
    by_cases h6 : t = 6
    · subst h6
      decide
    · exfalso
      have ht2 : (List.lookup t [(5, 3), (6, 1)]).isSome = true := ht
      rw [lookup_cons_eq, if_neg (fun h => hne h.symm),
        lookup_cons_eq, if_neg (fun h => h6 h.symm)] at ht2
      cases ht2

theorem reachable_runOps (ops : List Op) : ∀ g : GameState, Reachable g →
    Reachable (runOps g ops) := by
  induction ops with
  | nil => intro g h; exact h
  | cons op rest ih => intro g h; exact ih _ (Reachable.step g op h)

theorem pfind_mem {ps : List (Nat × PlayerState)} {x : Nat} {P : PlayerState}
    (h : pfind ps x = some P) : (x, P) ∈ ps := by
  induction ps with
  | nil => cases h
  | cons kv rest ih =>
    obtain ⟨a, b⟩ := kv
    by_cases hax : a = x
    · subst hax
      rw [pfind, if_pos rfl] at h
      cases h
      exact List.mem_cons_self _ _
    · rw [pfind, if_neg hax] at h
      exact List.mem_cons_of_mem _ (ih h)

theorem loverAt_eq_some {ps : List (Nat × PlayerState)} {p : Nat}
    {st : PlayerState} (h : pfind ps p = some st) :
    loverAt ps p = some st.lover_id := by
  unfold loverAt
  rw [h]
  rfl

theorem loverAt_inv {ps : List (Nat × PlayerState)} {p : Nat}
    {o : Option Nat} (h : loverAt ps p = some o) :
    ∃ st, pfind ps p = some st ∧ st.lover_id = o := by
  unfold loverAt at h
  cases hp : pfind ps p with
  | none => rw [hp] at h; cases h
  | some st =>
    rw [hp] at h
    exact ⟨st, rfl, by injection h⟩

theorem loverAt_pmod (ps : List (Nat × PlayerState)) (k : Nat)
    (f : PlayerState → PlayerState)
    (hf : ∀ st, (f st).lover_id = st.lover_id) (p : Nat) :
    loverAt (pmod ps k f) p = loverAt ps p := by
  unfold loverAt
  rw [pfind_pmod]
  split_ifs with h
  · cases pfind ps p <;> simp [hf]
  · rfl

theorem loverAt_markDead (final : List Nat) :
    ∀ (ps : List (Nat × PlayerState)) (p : Nat),
      loverAt (markDead ps final) p = loverAt ps p := by
  induction final with
  | nil => intro ps p; rfl
  | cons d rest ih =>
    intro ps p
    have hstep : markDead ps (d :: rest) =
        markDead (pmod ps d (fun q => { q with alive := false })) rest := rfl
    rw [hstep, ih, loverAt_pmod]
    intro st
    rfl

theorem healConsume_cupid_done (g : GameState) :
    (healConsume g).cupid_done = g.cupid_done := by
  unfold healConsume; split_ifs <;> rfl

theorem healConsume_cupid_targets (g : GameState) :
    (healConsume g).cupid_targets = g.cupid_targets := by
  unfold healConsume; split_ifs <;> rfl

theorem healConsume_started (g : GameState) :
    (healConsume g).started = g.started := by
  unfold healConsume; split_ifs <;> rfl

theorem infectApply_cupid_done (g : GameState) (v : Option Nat) :
    ((infectApply g v).2).cupid_done = g.cupid_done := by
  unfold infectApply
  split_ifs
  · cases g.black_infect_target_id <;> rfl
  · rfl

theorem infectApply_cupid_targets (g : GameState) (v : Option Nat) :
    ((infectApply g v).2).cupid_targets = g.cupid_targets := by
  unfold infectApply
  split_ifs
  · cases g.black_infect_target_id <;> rfl
  · rfl

theorem infectApply_started (g : GameState) (v : Option Nat) :
    ((infectApply g v).2).started = g.started := by
  unfold infectApply
  split_ifs
  · cases g.black_infect_target_id <;> rfl
  · rfl

theorem poisonStep_cupid_done (g : GameState) (d : List Nat) :
    ((poisonStep g d).1).cupid_done = g.cupid_done := by
  unfold poisonStep; split_ifs <;> rfl

theorem poisonStep_cupid_targets (g : GameState) (d : List Nat) :
    ((poisonStep g d).1).cupid_targets = g.cupid_targets := by
  unfold poisonStep; split_ifs <;> rfl

theorem poisonStep_started (g : GameState) (d : List Nat) :
    ((poisonStep g d).1).started = g.started := by
  unfold poisonStep; split_ifs <;> rfl

theorem nightKills_cupid_done (g : GameState) :
    ((nightKills g).1).cupid_done = g.cupid_done := by
  show ((poisonStep _ _).1).cupid_done = _
  rw [poisonStep_cupid_done, infectApply_cupid_done, healConsume_cupid_done]

theorem nightKills_cupid_targets (g : GameState) :
    ((nightKills g).1).cupid_targets = g.cupid_targets := by
  show ((poisonStep _ _).1).cupid_targets = _
  rw [poisonStep_cupid_targets, infectApply_cupid_targets,
    healConsume_cupid_targets]

theorem nightKills_started (g : GameState) :
    ((nightKills g).1).started = g.started := by
  show ((poisonStep _ _).1).started = _
  rw [poisonStep_started, infectApply_started, healConsume_started]

theorem applyNight_cupid_done (g : GameState) :
    (applyNight g).cupid_done = g.cupid_done := by
  simp only [applyNight]
  split <;> exact nightKills_cupid_done g

theorem applyNight_cupid_targets (g : GameState) :
    (applyNight g).cupid_targets = g.cupid_targets := by
  simp only [applyNight]
  split <;> exact nightKills_cupid_targets g

theorem applyNight_started (g : GameState) :
    (applyNight g).started = g.started := by
  simp only [applyNight]
  split <;> exact nightKills_started g

theorem nightKills_lover (g : GameState) (p : Nat) :
    loverAt ((nightKills g).1).players p = loverAt g.players p := by
  unfold loverAt
  rw [nightKills_players, infectApply_lover, healConsume_players]

theorem applyNight_lover (g : GameState) (p : Nat) :
    loverAt (applyNight g).players p = loverAt g.players p := by
  rw [applyNight_players, loverAt_markDead, nightKills_lover]

theorem applyCupid_started (g : GameState) :
    (applyCupid g).started = g.started := by
  unfold applyCupid
  split_ifs with h
  · split
    · split_ifs <;> rfl
    · rfl
  · rfl

theorem applyCupid_cupid_done (g : GameState) :
    (applyCupid g).cupid_done = g.cupid_done := by
  unfold applyCupid
  split_ifs with h
  · split
    · split_ifs <;> rfl
    · rfl
  · rfl

theorem applyCupid_cupid_targets (g : GameState) :
    (applyCupid g).cupid_targets = g.cupid_targets := by
  unfold applyCupid
  split_ifs with h
  · split
    · split_ifs <;> rfl
    · rfl
  · rfl

theorem applyCupid_phase (g : GameState) :
    (applyCupid g).phase = g.phase := by
  unfold applyCupid
  split_ifs with h
  · split
    · split_ifs <;> rfl
    · rfl
  · rfl

theorem applyCupid_vote (g : GameState) :
    (applyCupid g).vote = g.vote := by
  unfold applyCupid
  split_ifs with h
  · split
    · split_ifs <;> rfl
    · rfl
  · rfl

theorem applyVoteEnd_started (g : GameState) :
    (applyVoteEnd g).started = g.started := by
  simp only [applyVoteEnd]
  split_ifs with h
  · split <;> rfl
  · split <;> split <;> rfl

theorem applyVoteEnd_cupid_done (g : GameState) :
    (applyVoteEnd g).cupid_done = g.cupid_done := by
  simp only [applyVoteEnd]
  split_ifs with h
  · split <;> rfl
  · split <;> split <;> rfl

theorem applyVoteEnd_cupid_targets (g : GameState) :
    (applyVoteEnd g).cupid_targets = g.cupid_targets := by
  simp only [applyVoteEnd]
  split_ifs with h
  · split <;> rfl
  · split <;> split <;> rfl

theorem applyVoteEnd_lover (g : GameState) (p : Nat) :
    loverAt (applyVoteEnd g).players p = loverAt g.players p := by
  simp only [applyVoteEnd]
  split_ifs with h
  · split <;> rfl
  · split <;> split <;> first | rfl | (exact loverAt_markDead _ _ _)

theorem memKey_some {ps : List (Nat × PlayerState)} {x : Nat}
    (h : memKey ps x = true) : ∃ st, pfind ps x = some st := by
  unfold memKey at h
  cases hp : pfind ps x with
  | none => rw [hp] at h; cases h
  | some st => exact ⟨st, rfl⟩

theorem pfind_cupid_pair (ps : List (Nat × PlayerState)) (a b : Nat)
    (hab : a ≠ b) (p : Nat) :
    pfind (pmod (pmod ps a (fun q => { q with lover_id := some b }))
        b (fun q => { q with lover_id := some a })) p =
      if p = b then (pfind ps b).map (fun q => { q with lover_id := some a })
      else if p = a then
        (pfind ps a).map (fun q => { q with lover_id := some b })
      else pfind ps p := by
  rw [pfind_pmod, pfind_pmod]
  split_ifs with h1 h2 h3
  · exact absurd (h2.symm.trans h1) hab
  · rw [h1]
  · rw [h3]
  · rfl

theorem applyCupid_players_pair (g : GameState) (a b : Nat)
    (hcd : g.cupid_done = true) (hct : g.cupid_targets = [a, b])
    (hmm : (memKey g.players a && memKey g.players b) = true) :
    (applyCupid g).players = pmod (pmod g.players a
      (fun w => { w with lover_id := some b }))
      b (fun w => { w with lover_id := some a }) := by
  unfold applyCupid
  rw [if_pos hcd, hct]
  show (if (memKey g.players a && memKey g.players b) = true
      then { g with
              players := pmod (pmod g.players a
                                (fun w => { w with lover_id := some b }))
                            b (fun w => { w with lover_id := some a }),
              cupid_targets := [a, b] }
      else g).players = _
  rw [if_pos hmm]

/-- An applied Cupid pairing sets both lover fields, symmetrically. -/
theorem applyCupid_pair (g : GameState) (a b : Nat)
    (hcd : g.cupid_done = true) (hct : g.cupid_targets = [a, b])
    (hab : a ≠ b) (hma : memKey g.players a = true)
    (hmb : memKey g.players b = true) :
    loverAt (applyCupid g).players a = some (some b) ∧
    loverAt (applyCupid g).players b = some (some a) := by
  have hmm : (memKey g.players a && memKey g.players b) = true := by
    rw [Bool.and_eq_true]
    exact ⟨hma, hmb⟩
  rcases memKey_some hma with ⟨sa, hsa⟩
  rcases memKey_some hmb with ⟨sb, hsb⟩
  have hpl := applyCupid_players_pair g a b hcd hct hmm
  constructor
  · unfold loverAt
    rw [hpl, pfind_cupid_pair g.players a b hab, if_neg hab, if_pos rfl, hsa]
    rfl
  · unfold loverAt
    rw [hpl, pfind_cupid_pair g.players a b hab, if_pos rfl, hsb]
    rfl

theorem not_not_bool {b : Bool} (h : ¬((!b) = true)) : b = true := by
  cases hx : b
  · exact absurd (by rw [hx]; rfl) h
  · rfl

theorem eq_of_not_bne {α : Type} [BEq α] [LawfulBEq α] {a b : α}
    (h : ¬((a != b) = true)) : a = b := by
  simp only [bne_iff_ne, ne_eq, not_not] at h
  exact h

theorem loverInv_step (g : GameState) (op : Op) (h : LoverInv g) :
    LoverInv (stepOp g op).2 := by
  obtain ⟨h1, h2, h3, h4, h5⟩ := h
  cases op with
  | create uid =>
    show LoverInv (lg_create g uid).2
    unfold lg_create
    split_ifs with hp
    · exact ⟨h1, h2, h3, h4, h5⟩
    · exact ⟨fun hph => absurd (show ("lobby" : String) = "night" from hph)
          (by decide),
        fun hph => absurd (show ("lobby" : String) = "day" from hph)
          (by decide),
        fun hv => Bool.noConfusion hv,
        fun a b hct => List.noConfusion (show ([] : List Nat) = [a, b] from hct),
        fun _ kv hkv => absurd hkv (List.not_mem_nil kv)⟩
  | join uid =>
    show LoverInv (lg_join g uid).2
    unfold lg_join
    split_ifs with hp hs hm
    · exact ⟨h1, h2, h3, h4, h5⟩
    · exact ⟨h1, h2, h3, h4, h5⟩
    · exact ⟨h1, h2, h3, h4, h5⟩
    · have hsf : g.started = false := by
        cases hx : g.started
        · rfl
        · exact absurd hx hs
      refine ⟨h1, h2, h3, h4, fun _ => ?_⟩
      intro kv hkv
      rcases List.mem_append.mp hkv with hin | hin
      · exact h5 hsf kv hin
      · rw [List.mem_singleton.mp hin]
  | leave uid =>
    show LoverInv (lg_leave g uid).2
    unfold lg_leave
    split_ifs with hp hs hm
    · exact ⟨h1, h2, h3, h4, h5⟩
    · exact ⟨h1, h2, h3, h4, h5⟩
    · have hsf : g.started = false := by
        cases hx : g.started
        · rfl
        · exact absurd hx hs
      refine ⟨h1, h2, h3, h4, fun _ => ?_⟩
      intro kv hkv
      exact h5 hsf kv (List.mem_of_mem_filter hkv)
    · exact ⟨h1, h2, h3, h4, h5⟩
  | start uid rho =>
    show LoverInv (lg_start g uid rho).2
    unfold lg_start
    split_ifs with hp ho hs hn
    · exact ⟨h1, h2, h3, h4, h5⟩
    · exact ⟨h1, h2, h3, h4, h5⟩
    · exact ⟨h1, h2, h3, h4, h5⟩
    · exact ⟨h1, h2, h3, h4, h5⟩
    · exact ⟨fun _ => rfl, fun _ => rfl, fun _ => rfl, h4,
        fun hf => absurd (show true = false from hf) (by decide)⟩
  | resolveNight uid =>
    show LoverInv (lg_resolve_night g uid).2
    unfold lg_resolve_night
    split_ifs with hp ho hn
    · exact ⟨h1, h2, h3, h4, h5⟩
    · exact ⟨h1, h2, h3, h4, h5⟩
    · exact ⟨h1, h2, h3, h4, h5⟩
    · have hph : g.phase = "night" := by
        simp only [bne_iff_ne, ne_eq, not_not] at hn
        exact hn
      have hst := h1 hph
      refine ⟨?_, ?_, ?_, ?_, ?_⟩
      · intro _; rw [applyCupid_started]; exact hst
      · intro _; rw [applyCupid_started]; exact hst
      · intro _; rw [applyCupid_started]; exact hst
      · intro a b hct
        rw [applyCupid_cupid_targets] at hct
        exact h4 a b hct
      · intro hf
        rw [applyCupid_started] at hf
        exact absurd (hst.symm.trans hf) (by decide)
  | finishNight uid =>
    show LoverInv (lg_finish_night g uid).2
    unfold lg_finish_night
    split_ifs with hp ho hn
    · exact ⟨h1, h2, h3, h4, h5⟩
    · exact ⟨h1, h2, h3, h4, h5⟩
    · exact ⟨h1, h2, h3, h4, h5⟩
    · have hph : g.phase = "night" := by
        simp only [bne_iff_ne, ne_eq, not_not] at hn
        exact hn
      have hst := h1 hph
      refine ⟨?_, ?_, ?_, ?_, ?_⟩
      · intro _; rw [applyNight_started]; exact hst
      · intro _; rw [applyNight_started]; exact hst
      · intro _; rw [applyNight_started]; exact hst
      · intro a b hct
        rw [applyNight_cupid_targets] at hct
        exact h4 a b hct
      · intro hf
        rw [applyNight_started] at hf
        exact absurd (hst.symm.trans hf) (by decide)
  | mayorStart uid =>
    show LoverInv (lg_mayor_start g uid).2
    unfold lg_mayor_start
    split_ifs with hp ho hn
    · exact ⟨h1, h2, h3, h4, h5⟩
    · exact ⟨h1, h2, h3, h4, h5⟩
    · exact ⟨h1, h2, h3, h4, h5⟩
    · have hph : g.phase = "day" := by
        simp only [bne_iff_ne, ne_eq, not_not] at hn
        exact hn
      have hst := h2 hph
      exact ⟨fun _ => hst, fun _ => hst, fun _ => hst, h4,
        fun hf => absurd (hst.symm.trans hf) (by decide)⟩
  | dayvoteStart uid =>
    show LoverInv (lg_dayvote_start g uid).2
    unfold lg_dayvote_start
    split_ifs with hp ho hn
    · exact ⟨h1, h2, h3, h4, h5⟩
    · exact ⟨h1, h2, h3, h4, h5⟩
    · exact ⟨h1, h2, h3, h4, h5⟩
    · have hph : g.phase = "day" := by
        simp only [bne_iff_ne, ne_eq, not_not] at hn
        exact hn
      have hst := h2 hph
      exact ⟨fun _ => hst, fun _ => hst, fun _ => hst, h4,
        fun hf => absurd (hst.symm.trans hf) (by decide)⟩
  | vote uid target =>
    show LoverInv (lg_vote g uid target).2
    unfold lg_vote
    split_ifs with hp hv ha hb
    · exact ⟨h1, h2, h3, h4, h5⟩
    · exact ⟨h1, h2, h3, h4, h5⟩
    · exact ⟨h1, h2, h3, h4, h5⟩
    · exact ⟨h1, h2, h3, h4, h5⟩
    · have hva : g.vote.active = true := not_not_bool hv
      have hst := h3 hva
      exact ⟨fun _ => hst, fun _ => hst, fun _ => hst, h4,
        fun hf => absurd (hst.symm.trans hf) (by decide)⟩
  | voteEnd uid =>
    show LoverInv (lg_vote_end g uid).2
    unfold lg_vote_end
    split_ifs with hp ho hv
    · exact ⟨h1, h2, h3, h4, h5⟩
    · exact ⟨h1, h2, h3, h4, h5⟩
    · exact ⟨h1, h2, h3, h4, h5⟩
    · have hva : g.vote.active = true := not_not_bool hv
      have hst := h3 hva
      refine ⟨?_, ?_, ?_, ?_, ?_⟩
      · intro _; rw [applyVoteEnd_started]; exact hst
      · intro _; rw [applyVoteEnd_started]; exact hst
      · intro _; rw [applyVoteEnd_started]; exact hst
      · intro a b hct
        rw [applyVoteEnd_cupid_targets] at hct
        exact h4 a b hct
      · intro hf
        rw [applyVoteEnd_started] at hf
        exact absurd (hst.symm.trans hf) (by decide)
  | forceEnd uid =>
    show LoverInv (lg_end g uid).2
    unfold lg_end
    split_ifs with ho
    · exact ⟨h1, h2, h3, h4, h5⟩
    · exact ⟨fun hph => absurd (show ("ended" : String) = "night" from hph)
          (by decide),
        fun hph => absurd (show ("ended" : String) = "day" from hph)
          (by decide),
        h3, h4, h5⟩
  | subGuard t =>
    show LoverInv (submitGuard g t).2
    unfold submitGuard
    split_ifs with hn ha
    · exact ⟨h1, h2, h3, h4, h5⟩
    · exact ⟨h1, h2, h3, h4, h5⟩
    · have hst := h1 (eq_of_not_bne hn)
      exact ⟨fun _ => hst, fun _ => hst, fun _ => hst, h4,
        fun hf => absurd (hst.symm.trans hf) (by decide)⟩
  | subSeer t =>
    show LoverInv (submitSeer g t).2
    unfold submitSeer
    split_ifs with hn ha
    · exact ⟨h1, h2, h3, h4, h5⟩
    · exact ⟨h1, h2, h3, h4, h5⟩
    · have hst := h1 (eq_of_not_bne hn)
      exact ⟨fun _ => hst, fun _ => hst, fun _ => hst, h4,
        fun hf => absurd (hst.symm.trans hf) (by decide)⟩
  | subWolves t =>
    show LoverInv (submitWolves g t).2
    unfold submitWolves
    split_ifs with hn ha
    · exact ⟨h1, h2, h3, h4, h5⟩
    · exact ⟨h1, h2, h3, h4, h5⟩
    · have hst := h1 (eq_of_not_bne hn)
      exact ⟨fun _ => hst, fun _ => hst, fun _ => hst, h4,
        fun hf => absurd (hst.symm.trans hf) (by decide)⟩
  | subWitchHeal t =>
    show LoverInv (submitWitchHeal g t).2
    unfold submitWitchHeal
    split_ifs with hn ha
    · exact ⟨h1, h2, h3, h4, h5⟩
    · exact ⟨h1, h2, h3, h4, h5⟩
    · rw [not_or] at hn
      have hst := h1 (eq_of_not_bne hn.1)
      exact ⟨fun _ => hst, fun _ => hst, fun _ => hst, h4,
        fun hf => absurd (hst.symm.trans hf) (by decide)⟩
  | subWitchKill t =>
    show LoverInv (submitWitchKill g t).2
    unfold submitWitchKill
    split_ifs with hn ha
    · exact ⟨h1, h2, h3, h4, h5⟩
    · exact ⟨h1, h2, h3, h4, h5⟩
    · rw [not_or] at hn
      have hst := h1 (eq_of_not_bne hn.1)
      exact ⟨fun _ => hst, fun _ => hst, fun _ => hst, h4,
        fun hf => absurd (hst.symm.trans hf) (by decide)⟩
  | subInfect t =>
    show LoverInv (submitInfect g t).2
    unfold submitInfect
    split_ifs with hn ha
    · exact ⟨h1, h2, h3, h4, h5⟩
    · exact ⟨h1, h2, h3, h4, h5⟩
    · rw [not_or] at hn
      have hst := h1 (eq_of_not_bne hn.1)
      exact ⟨fun _ => hst, fun _ => hst, fun _ => hst, h4,
        fun hf => absurd (hst.symm.trans hf) (by decide)⟩
  | subCupid ts =>
    show LoverInv (submitCupid g ts).2
    unfold submitCupid
    split_ifs with hn hsh ha
    · exact ⟨h1, h2, h3, h4, h5⟩
    · exact ⟨h1, h2, h3, h4, h5⟩
    · exact ⟨h1, h2, h3, h4, h5⟩
    · refine ⟨h1, h2, h3, ?_, h5⟩
      intro a b hct
      have hts : ts = [a, b] := hct
      have hshape := not_not_bool hsh
      rw [hts] at hshape
      exact bne_iff_ne.mp hshape

theorem loverInv_init (owner : Nat) : LoverInv { created_by := owner } :=
  ⟨fun hph => absurd (show ("lobby" : String) = "night" from hph) (by decide),
    fun hph => absurd (show ("lobby" : String) = "day" from hph) (by decide),
    fun hv => Bool.noConfusion hv,
    fun a b hct => List.noConfusion (show ([] : List Nat) = [a, b] from hct),
    fun _ kv hkv => absurd hkv (List.not_mem_nil kv)⟩

theorem loverInv_reachable {s : GameState} (hs : Reachable s) : LoverInv s := by
  induction hs with
  | init owner => exact loverInv_init owner
  | step s op _ ih => exact loverInv_step s op ih

/-- C9 counterexample: the Cupid pairing is applied by `ResolveNight`, not
at submission time, and the first-night menu accepts re-submissions.  The
reachable state `probeC9x` is in its second night (`day = 1`) with every
bond still unset, and that night's resolve establishes the 4-5 bond — so
the bond is not established on the first night only.  Continuing to
`probeC9y`, a re-submission of the pairing [4, 6] followed by another
resolve re-points participant 4 at 6 while 5 still points at 4, before the
game has ended — so the bond is neither permanent nor always symmetric. -/
theorem C9_counterexample :
    Reachable probeC9x ∧ probeC9x.day = 1 ∧ probeC9x.phase = "night" ∧
    probeC9x.players.all (fun kv => kv.2.lover_id == none) = true ∧
    loverAt probeC9w.players 4 = some (some 5) ∧
    loverAt probeC9w.players 5 = some (some 4) ∧
    Reachable probeC9y ∧ probeC9y.phase ≠ "ended" ∧
    loverAt probeC9y.players 4 = some (some 6) ∧
    loverAt probeC9y.players 5 = some (some 4) ∧
    loverAt probeC9y.players 6 = some (some 4) := by
  refine ⟨reachable_runOps c9ops { created_by := 1 } (Reachable.init 1),
    by decide, by decide, by decide, by decide, by decide, ?_,
    by decide, by decide, by decide, by decide⟩
  exact reachable_runOps [.subCupid [4, 6], .resolveNight 1] probeC9w
    (Reachable.step probeC9x (.resolveNight 1)
      (reachable_runOps c9ops { created_by := 1 } (Reachable.init 1)))

/-- C9 (amended): the Cupid pairing is submitted through the first-night
menu, but the bond is applied by `ResolveNight` — possibly on a later
night — and a re-submission through the still-live menu followed by
another resolve re-points it, so the bond is neither confined to the first
night nor permanent nor always symmetric (see the counterexample).  What
holds for every reachable session: an accepted `ResolveNight` applies the
currently submitted pairing symmetrically to its two distinct tracked
participants, and no operation other than `ResolveNight` changes or
clears any participant's set bond while the game has not ended. -/
theorem C9_cupid_bond (s : GameState) (hs : Reachable s) :
    (∀ uid a b, s.cupid_done = true → s.cupid_targets = [a, b] →
      memKey s.players a = true → memKey s.players b = true →
      (stepOp s (.resolveNight uid)).1 = none →
      a ≠ b ∧
      loverAt (stepOp s (.resolveNight uid)).2.players a = some (some b) ∧
      loverAt (stepOp s (.resolveNight uid)).2.players b = some (some a)) ∧
    (∀ op p st q, (∀ uid, op ≠ Op.resolveNight uid) → s.phase ≠ "ended" →
      pfind s.players p = some st → st.lover_id = some q →
      ∃ st2, pfind (stepOp s op).2.players p = some st2 ∧
        st2.lover_id = some q) := by
  obtain ⟨h1, h2, h3, h4, h5⟩ := loverInv_reachable hs
  constructor
  · intro uid a b hcd hct hma hmb hacc
    have hab := h4 a b hct
    simp only [stepOp] at hacc ⊢
    unfold lg_resolve_night at hacc ⊢
    split_ifs at hacc ⊢
    obtain ⟨hla, hlb⟩ := applyCupid_pair s a b hcd hct hab hma hmb
    exact ⟨hab, hla, hlb⟩
  · intro op p st q hop hphase hp hq
    have hst : s.started = true := by
      cases hb : s.started
      · exfalso
        have h0 := h5 hb (p, st) (pfind_mem hp)
        rw [h0] at hq
        exact Option.noConfusion hq
      · rfl
    cases op with
    | create uid =>
      simp only [stepOp]
      unfold lg_create
      split_ifs with hc
      · exact ⟨st, hp, hq⟩
      · exact absurd (eq_of_not_bne hc) hphase
    | join uid =>
      simp only [stepOp]
      unfold lg_join
      split_ifs <;> exact ⟨st, hp, hq⟩
    | leave uid =>
      simp only [stepOp]
      unfold lg_leave
      split_ifs <;> exact ⟨st, hp, hq⟩
    | start uid rho =>
      simp only [stepOp]
      unfold lg_start
      split_ifs <;> exact ⟨st, hp, hq⟩
    | resolveNight uid => exact absurd rfl (hop uid)
    | finishNight uid =>
      simp only [stepOp]
      unfold lg_finish_night
      split_ifs with hc ho hn
      · exact ⟨st, hp, hq⟩
      · exact ⟨st, hp, hq⟩
      · exact ⟨st, hp, hq⟩
      · have hL := applyNight_lover s p
        rw [loverAt_eq_some hp, hq] at hL
        exact loverAt_inv hL
    | mayorStart uid =>
      simp only [stepOp]
      unfold lg_mayor_start
      split_ifs <;> exact ⟨st, hp, hq⟩
    | dayvoteStart uid =>
      simp only [stepOp]
      unfold lg_dayvote_start
      split_ifs <;> exact ⟨st, hp, hq⟩
    | vote uid target =>
      simp only [stepOp]
      unfold lg_vote
      split_ifs <;> exact ⟨st, hp, hq⟩
    | voteEnd uid =>
      simp only [stepOp]
      unfold lg_vote_end
      split_ifs with hc ho hv
      · exact ⟨st, hp, hq⟩
      · exact ⟨st, hp, hq⟩
      · exact ⟨st, hp, hq⟩
      · have hL := applyVoteEnd_lover s p
        rw [loverAt_eq_some hp, hq] at hL
        exact loverAt_inv hL
    | forceEnd uid =>
      simp only [stepOp]
      unfold lg_end
      split_ifs <;> exact ⟨st, hp, hq⟩
    | subGuard t =>
      simp only [stepOp]
      unfold submitGuard
      split_ifs <;> exact ⟨st, hp, hq⟩
    | subSeer t =>
      simp only [stepOp]
      unfold submitSeer
      split_ifs <;> exact ⟨st, hp, hq⟩
    | subWolves t =>
      simp only [stepOp]
      unfold submitWolves
      split_ifs <;> exact ⟨st, hp, hq⟩
    | subWitchHeal t =>
      simp only [stepOp]
      unfold submitWitchHeal
      split_ifs <;> exact ⟨st, hp, hq⟩
    | subWitchKill t =>
      simp only [stepOp]
      unfold submitWitchKill
      split_ifs <;> exact ⟨st, hp, hq⟩
    | subInfect t =>
      simp only [stepOp]
      unfold submitInfect
      split_ifs <;> exact ⟨st, hp, hq⟩
    | subCupid ts =>
      simp only [stepOp]
      unfold submitCupid
      split_ifs <;> exact ⟨st, hp, hq⟩

/-- C9 witness: the amended theorem applied at the reachable second-night
state `probeC9x`, whose accepted resolve bonds participants 4 and 5
symmetrically; and a guard submission on the bonded state `probeC9w`
leaves the bond of participant 4 unchanged. -/
theorem C9_cupid_bond_witness :
    (4 ≠ 5 ∧
      loverAt (stepOp probeC9x (.resolveNight 1)).2.players 4 =
        some (some 5) ∧
      loverAt (stepOp probeC9x (.resolveNight 1)).2.players 5 =
        some (some 4)) ∧
    (∃ st2, pfind (stepOp probeC9w (.subGuard 3)).2.players 4 = some st2 ∧
      st2.lover_id = some 5) := by
  have hr : Reachable probeC9x :=
    reachable_runOps c9ops { created_by := 1 } (Reachable.init 1)
  have hrw : Reachable probeC9w := Reachable.step probeC9x (.resolveNight 1) hr
  constructor
  · exact (C9_cupid_bond probeC9x hr).1 1 4 5 (by decide) (by decide)
      (by decide) (by decide) (by decide)
  · exact (C9_cupid_bond probeC9w hrw).2 (.subGuard 3) 4 stC9 5
      (fun uid hcontra => Op.noConfusion hcontra) (by decide) (by decide)
      (by decide)

end LoupGarou
